import Mathlib

/-!
# yt `_MPL.c`: `Py_Pixelize` (`rasterize_planar`) and `Py_CPixelize` (`project_cutting_plane`)

A shallow embedding of `yt/visualization/_MPL.c`.

* `double` values are modelled by exact rationals (`ℚ`); the statements below are
  statements "in exact arithmetic".  Lean's `x / 0 = 0` replaces the IEEE
  infinities and NaNs, so every theorem about pixel values assumes
  `rows > 0`, `cols > 0` and non-degenerate bounds, or an input on which no
  division result is used.  `long double` values and the constant `0.95`
  (`19/20`) are exact rationals as well; `sqrtl` is a parameter.
* Exact arithmetic has no rounding and no overflow.  Where the source rounds,
  an index range computed here can differ from the one computed in `double`
  by a pixel; where `1.0 / px_dx` overflows to an infinite `double`, the
  conversion of an infinite `lc` or `lr` to `int` is undefined in C and has no
  counterpart here (see `DBL_MAX` and `tinyBoundsArgs`).
* `unsigned int` / `int` counters are modelled by unbounded naturals (no
  wrap-around: the grids considered have fewer than `2^31` rows and columns).
* The NumPy output array `my_array` of `Py_Pixelize` with `dims = (rows, cols)`
  is a function `Nat → Nat → ℚ` together with its two dimensions;
  `PyArray_GETPTR2(my_array, j, i)` is the pixel `data j i`.
* The CPython calling convention of `Py_Pixelize` is modelled by `PyResult`:
  the returned pointer (`none` is `NULL`), the error indicator at return, and
  whether the output array was allocated.  The sequences are taken as already
  convertible to 1-D arrays of doubles, so the `== NULL` halves of the array
  tests never fire.
* `Py_CPixelize` stores the two dimensions through the pointer `dims`, which it
  declares and never assigns.  The behaviour of a call is undefined from that
  store on, and `CPyResult` says so: a call either fails an argument test or
  reaches the undefined store.  The statements that follow the store in the
  source (the zero fill, the cell loop, the final division) are modelled as
  functions of their own, `CPixelize.cellLoop` and `CPixelize.output`; a read
  of a per-cell array outside its bounds makes them undefined (`none`).

The file has the definitions first (the embedding, the notions used in the
statements, the concrete inputs), then the lemmas, then one theorem per claim.
-/

namespace MPL

/-! ## Data model -/

/-- The C macro `min(X,Y) ((X) < (Y) ? (X) : (Y))`. -/
def c_min (X Y : ℚ) : ℚ := if X < Y then X else Y

/-- The C macro `max(X,Y) ((X) > (Y) ? (X) : (Y))`. -/
def c_max (X Y : ℚ) : ℚ := if X > Y then X else Y

/-- The trailing optional arguments of `Pixelize`, format `"|i(dd)i"`: a call
gives none of them, `antialias`, `antialias` and `period`, or all three. -/
inductive OptArgs where
  | omitted
  | upto_antialias (antialias : Int)
  | upto_period (antialias : Int) (period_x period_y : ℚ)
  | all (antialias : Int) (period_x period_y : ℚ) (check_period : Int)

/-- The positional argument tuple of `Pixelize`, format `"OOOOOII(dddd)|i(dd)i"`,
with the five sequences already seen as 1-D arrays of doubles. -/
structure PixelizeArgs where
  xp : List ℚ
  yp : List ℚ
  dxp : List ℚ
  dyp : List ℚ
  dp : List ℚ
  arg6 : Nat
  arg7 : Nat
  b0 : ℚ
  b1 : ℚ
  b2 : ℚ
  b3 : ℚ
  opt : OptArgs

/-- The scalar locals of `Py_Pixelize` after `PyArg_ParseTuple`. -/
structure Params where
  rows : Nat
  cols : Nat
  x_min : ℚ
  x_max : ℚ
  y_min : ℚ
  y_max : ℚ
  antialias : Int
  period_x : ℚ
  period_y : ℚ
  check_period : Int

/-- The call `PyArg_ParseTuple(args, "OOOOOII(dddd)|i(dd)i", &xp, &yp, &dxp, &dyp, &dp,
&cols, &rows, &x_min, &x_max, &y_min, &y_max, &antialias, &period_x, &period_y,
&check_period)` on top of the initialisers `antialias = 1`,
`period_x = period_y = 0`, `check_period = 1`. -/
def parseArgs (a : PixelizeArgs) : Params :=
  match a.opt with
  | .omitted => ⟨a.arg7, a.arg6, a.b0, a.b1, a.b2, a.b3, 1, 0, 0, 1⟩
  | .upto_antialias aa => ⟨a.arg7, a.arg6, a.b0, a.b1, a.b2, a.b3, aa, 0, 0, 1⟩
  | .upto_period aa px py => ⟨a.arg7, a.arg6, a.b0, a.b1, a.b2, a.b3, aa, px, py, 1⟩
  | .all aa px py cp => ⟨a.arg7, a.arg6, a.b0, a.b1, a.b2, a.b3, aa, px, py, cp⟩

namespace Params

/-- The local `width = x_max - x_min`. -/
def width (P : Params) : ℚ := P.x_max - P.x_min

/-- The local `height = y_max - y_min`. -/
def height (P : Params) : ℚ := P.y_max - P.y_min

/-- The local `px_dx = width / ((double) rows)`. -/
def px_dx (P : Params) : ℚ := P.width / (P.rows : ℚ)

/-- The local `px_dy = height / ((double) cols)`. -/
def px_dy (P : Params) : ℚ := P.height / (P.cols : ℚ)

/-- The local `ipx_dx = 1.0 / px_dx`. -/
def ipx_dx (P : Params) : ℚ := 1 / P.px_dx

/-- The local `ipx_dy = 1.0 / px_dy`. -/
def ipx_dy (P : Params) : ℚ := 1 / P.px_dy

end Params

/-- One source cell: the values read at index `p` from the five arrays. -/
structure Cell where
  oxsp : ℚ
  oysp : ℚ
  dxsp : ℚ
  dysp : ℚ
  dsp : ℚ

/-- The reads `oxsp = x[p]`, `oysp = y[p]`, `dxsp = dx[p]`, `dysp = dy[p]`,
`dsp = d[p]` at the head of the cell loop. -/
def readCell (x y dx dy d : List ℚ) (p : Nat) : Cell :=
  ⟨x.getD p 0, y.getD p 0, dx.getD p 0, dy.getD p 0, d.getD p 0⟩

/-- The pixel buffer of `my_array`. -/
abbrev Pixels := Nat → Nat → ℚ

/-- The store `*(npy_float64*) PyArray_GETPTR2(my_array, j, i) = v`. -/
def Pixels.set (g : Pixels) (j i : Nat) (v : ℚ) : Pixels :=
  fun j1 i1 => if j1 = j ∧ i1 = i then v else g j1 i1

/-- The output array: `dims[0]`, `dims[1]` and the buffer. -/
structure Grid where
  dim0 : Nat
  dim1 : Nat
  data : Pixels

/-- What a call leaves behind: the returned object (`none` is `NULL`), the
error indicator, and whether `PyArray_SimpleNewFromDescr` was reached. -/
structure PyResult where
  ret : Option Grid
  err : Option String
  allocated : Bool

/-! ## The cell loop of `Py_Pixelize` -/

/-- The values an `int` counter takes in `for (i = lo; i < hi; i++)` when
`lo ≥ 0` and `hi` are doubles: it starts at `lo` truncated and runs while
`i < hi`.  The conversion `i = lo` is defined in C only for a finite `lo`
whose truncation fits an `int`; rationals are always finite, so an infinite
`lo` (the product of a positive edge offset with an overflowed `ipx_dx`) and
the negative counter an implementation may then produce do not occur here. -/
def forRange (lo hi : ℚ) : List Nat :=
  List.range' ⌊lo⌋.toNat (⌈hi⌉ - ⌊lo⌋).toNat

/-- The pairs `(xiter[xi], xiterv[xi])`, `xi = 0, 1`, for one cell.  Slot 0 is
`(0, 0.0)`; slot 1 is reset to `999` and set when `check_period == 1` and the
cell crosses an x edge (the stale `xiterv[1]` of a slot left at `999` is never
read and is shown as `0`). -/
def xCandidates (P : Params) (c : Cell) : List (Int × ℚ) :=
  [(0, 0),
   if P.check_period = 1 then
     if c.oxsp - c.dxsp < P.x_min then (1, P.period_x)
     else if c.oxsp + c.dxsp > P.x_max then (-1, -P.period_x)
     else (999, 0)
   else (999, 0)]

/-- The pairs `(yiter[yi], yiterv[yi])`, `yi = 0, 1`, for one cell. -/
def yCandidates (P : Params) (c : Cell) : List (Int × ℚ) :=
  [(0, 0),
   if P.check_period = 1 then
     if c.oysp - c.dysp < P.y_min then (1, P.period_y)
     else if c.oysp + c.dysp > P.y_max then (-1, -P.period_y)
     else (999, 0)
   else (999, 0)]

/-- The value of `overlap1` for pixel column `j` (left at `1.0` when `antialias != 1`). -/
def overlap1 (P : Params) (c : Cell) (xsp : ℚ) (j : Nat) : ℚ :=
  let lxpx := P.px_dx * (j : ℚ) + P.x_min
  let rxpx := P.px_dx * ((j : ℚ) + 1) + P.x_min
  if P.antialias = 1 then
    (c_min rxpx (xsp + c.dxsp) - c_max lxpx (xsp - c.dxsp)) * P.ipx_dx
  else 1

/-- The value of `overlap2` for pixel row `i` (left at `1.0` when `antialias != 1`). -/
def overlap2 (P : Params) (c : Cell) (ysp : ℚ) (i : Nat) : ℚ :=
  let lypx := P.px_dy * (i : ℚ) + P.y_min
  let rypx := P.px_dy * ((i : ℚ) + 1) + P.y_min
  if P.antialias = 1 then
    (c_min rypx (ysp + c.dysp) - c_max lypx (ysp - c.dysp)) * P.ipx_dy
  else 1

/-- The body of `for (j=lc;j<rc;j++)`. -/
def jBody (P : Params) (c : Cell) (xsp ysp : ℚ) (i : Nat) (g : Pixels) (j : Nat) : Pixels :=
  if overlap1 P c xsp j < 0 then g
  else if P.antialias = 1 then
    g.set j i (g j i + (c.dsp * overlap1 P c xsp j) * overlap2 P c ysp i)
  else g.set j i c.dsp

/-- The local `lc = max(((xsp-dxsp-x_min)*ipx_dx),0)`. -/
def lc (P : Params) (c : Cell) (xsp : ℚ) : ℚ := c_max ((xsp - c.dxsp - P.x_min) * P.ipx_dx) 0

/-- The local `lr = max(((ysp-dysp-y_min)*ipx_dy),0)`. -/
def lr (P : Params) (c : Cell) (ysp : ℚ) : ℚ := c_max ((ysp - c.dysp - P.y_min) * P.ipx_dy) 0

/-- The local `rc = min(((xsp+dxsp-x_min)*ipx_dx), rows)`. -/
def rc (P : Params) (c : Cell) (xsp : ℚ) : ℚ := c_min ((xsp + c.dxsp - P.x_min) * P.ipx_dx) (P.rows : ℚ)

/-- The local `rr = min(((ysp+dysp-y_min)*ipx_dy), cols)`. -/
def rr (P : Params) (c : Cell) (ysp : ℚ) : ℚ := c_min ((ysp + c.dysp - P.y_min) * P.ipx_dy) (P.cols : ℚ)

/-- The body of `for (i=lr;i<rr;i++)`. -/
def iBody (P : Params) (c : Cell) (xsp ysp : ℚ) (g : Pixels) (i : Nat) : Pixels :=
  if overlap2 P c ysp i < 0 then g
  else (forRange (lc P c xsp) (rc P c xsp)).foldl (jBody P c xsp ysp i) g

/-- The block executed for one candidate position `(xsp, ysp)` that passed the
two bounds tests: compute `lc`, `lr`, `rc`, `rr` and run the two pixel loops. -/
def deposit (P : Params) (c : Cell) (xsp ysp : ℚ) (g : Pixels) : Pixels :=
  (forRange (lr P c ysp) (rr P c ysp)).foldl (iBody P c xsp ysp) g

/-- The body of `for(yi = 0; yi < 2; yi++)`. -/
def yiBody (P : Params) (c : Cell) (xsp : ℚ) (g : Pixels) (yc : Int × ℚ) : Pixels :=
  if yc.1 = 999 then g
  else
    let ysp := c.oysp + yc.2
    if ysp + c.dysp < P.y_min ∨ ysp - c.dysp > P.y_max then g
    else deposit P c xsp ysp g

/-- The body of `for(xi = 0; xi < 2; xi++)`. -/
def xiBody (P : Params) (c : Cell) (g : Pixels) (xc : Int × ℚ) : Pixels :=
  if xc.1 = 999 then g
  else
    let xsp := c.oxsp + xc.2
    if xsp + c.dxsp < P.x_min ∨ xsp - c.dxsp > P.x_max then g
    else (yCandidates P c).foldl (yiBody P c xsp) g

/-- The body of `for(p=0;p<nx;p++)` for the cell read at `p`. -/
def cellStep (P : Params) (g : Pixels) (c : Cell) : Pixels :=
  (xCandidates P c).foldl (xiBody P c) g

/-- The zero fill `for(i=0;i<rows;i++)for(j=0;j<cols;j++) my_array[i][j] = 0.0`. -/
def zeroPixels : Pixels := fun _ _ => 0

/-- The cells in loop order, `p = 0 .. nx-1`. -/
def cells (x y dx dy d : List ℚ) (nx : Nat) : List Cell :=
  (List.range nx).map (readCell x y dx dy d)

/-- The zero fill followed by the whole cell loop. -/
def cellLoop (P : Params) (cs : List Cell) : Pixels :=
  cs.foldl (cellStep P) zeroPixels

/-! ## `Py_Pixelize` -/

/-- The function `Py_Pixelize`: parse, the zero-size test (which only sets the
error indicator), the four size tests (each a `goto _fail`), allocation, zero
fill, cell loop, `return Py_BuildValue("N", my_array)`. -/
def Py_Pixelize (a : PixelizeArgs) : PyResult :=
  let P := parseArgs a
  let e0 : Option String :=
    if P.rows = 0 ∨ P.cols = 0 then some "Cannot scale to zero size." else none
  if a.yp.length ≠ a.xp.length then
    ⟨none, some "y is of incorrect type (wanted 1D float)", false⟩
  else if a.dp.length ≠ a.xp.length then
    ⟨none, some "data is of incorrect type (wanted 1D float)", false⟩
  else if a.dxp.length ≠ a.xp.length then
    ⟨none, some "dx is of incorrect type (wanted 1D float)", false⟩
  else if a.dyp.length ≠ a.xp.length then
    ⟨none, some "dy is of incorrect type (wanted 1D float)", false⟩
  else
    let nx := a.xp.length
    ⟨some ⟨P.rows, P.cols, cellLoop P (cells a.xp a.yp a.dxp a.dyp a.dp nx)⟩, e0, true⟩

/-- The scenario of the spec: one cell at `(0,0)`, half-widths `(1,1)`, value 4,
2 x 2 grid over `(-1,1,-1,1)`, with the given `antialias` and `check_period` flags and period `(0,0)`. -/
def scenarioArgs (antialias check_period : Int) : PixelizeArgs :=
  ⟨[0], [0], [1], [1], [4], 2, 2, -1, 1, -1, 1, .all antialias 0 0 check_period⟩

/-! ## `Py_CPixelize` (`project_cutting_plane`)

`long double` values are exact rationals as well; the constant `0.95` is
`19/20`; `sqrtl` is the C library's square root and is a parameter.  An entry
of `gridded` is `none` after the final division when the division is by zero
(the not-a-number of `0.0 / 0.0`). -/

/-- The positional argument tuple of `CPixelize`, format
`"OOOOOOOOOOOOII(dddd)"`, with the 1-D sequences seen as arrays of doubles,
`inv_mat` as a 2-D array (a list of rows) and `indices` as an array of
`int64`. -/
structure CPixelizeArgs where
  xp : List ℚ
  yp : List ℚ
  zp : List ℚ
  pxp : List ℚ
  pyp : List ℚ
  dxp : List ℚ
  dyp : List ℚ
  dzp : List ℚ
  centerp : List ℚ
  inv_matp : List (List ℚ)
  indicesp : List Int
  dp : List ℚ
  arg13 : Nat
  arg14 : Nat
  b0 : ℚ
  b1 : ℚ
  b2 : ℚ
  b3 : ℚ

namespace CPixelizeArgs

/-- The local `cols`: `PyArg_ParseTuple` stores the thirteenth argument in it. -/
def cols (a : CPixelizeArgs) : Nat := a.arg13

/-- The local `rows`: `PyArg_ParseTuple` stores the fourteenth argument in it. -/
def rows (a : CPixelizeArgs) : Nat := a.arg14

/-- The local `px_min`. -/
def px_min (a : CPixelizeArgs) : ℚ := a.b0

/-- The local `px_max`. -/
def px_max (a : CPixelizeArgs) : ℚ := a.b1

/-- The local `py_min`. -/
def py_min (a : CPixelizeArgs) : ℚ := a.b2

/-- The local `py_max`. -/
def py_max (a : CPixelizeArgs) : ℚ := a.b3

/-- The local `px_dx = width / ((double) rows)` with `width = px_max - px_min`. -/
def px_dx (a : CPixelizeArgs) : ℚ := (a.px_max - a.px_min) / (a.rows : ℚ)

/-- The local `px_dy = height / ((double) cols)` with `height = py_max - py_min`. -/
def px_dy (a : CPixelizeArgs) : ℚ := (a.py_max - a.py_min) / (a.cols : ℚ)

/-- The copy `inv_mats[i][j] = *(npy_float64*)PyArray_GETPTR2(inv_mat,i,j)`. -/
def inv_mats (a : CPixelizeArgs) (i j : Nat) : ℚ := (a.inv_matp.getD i []).getD j 0

/-- The entry `centers[k]` of the plane center. -/
def centers (a : CPixelizeArgs) (k : Nat) : ℚ := a.centerp.getD k 0

/-- The element count `PyArray_SIZE(inv_mat)`. -/
def inv_mat_size (a : CPixelizeArgs) : Nat := (a.inv_matp.map List.length).sum

end CPixelizeArgs

/-- The value of `*((npy_float64 *) PyArray_GETPTR1(arr, p))` for an index `p`
inside the array.  A read outside the array is undefined in the source: the
cell loop `CPixelize.cellLoop` tests `CPixelize.readable` before it uses
`readAt` and is undefined (`none`) when the test fails, so the `0` that
`readAt` shows outside the array is the value of no read. -/
def readAt (arr : List ℚ) (p : Int) : ℚ := if 0 ≤ p then arr.getD p.toNat 0 else 0

/-- The nine values read for the selected cell `p`. -/
structure Cell3 where
  xsp : ℚ
  ysp : ℚ
  zsp : ℚ
  pxsp : ℚ
  pysp : ℚ
  dxsp : ℚ
  dysp : ℚ
  dzsp : ℚ
  dsp : ℚ

/-- The nine reads at the head of the cell loop of `Py_CPixelize`. -/
def readCell3 (a : CPixelizeArgs) (p : Int) : Cell3 :=
  ⟨readAt a.xp p, readAt a.yp p, readAt a.zp p, readAt a.pxp p, readAt a.pyp p,
    readAt a.dxp p, readAt a.dyp p, readAt a.dzp p, readAt a.dp p⟩

/-- The two flat buffers `gridded` (value sums) and `mask` (hit counts). -/
structure Buffers where
  gridded : Nat → ℚ
  mask : Nat → ℚ

/-- What a call of `Py_CPixelize` leaves behind.  `failed` is the `_fail`
exit: `NULL` is returned with the given error message, and the output array
has not been allocated.  A call that passes every argument test goes on to
`dims[0] = rows; dims[1] = cols;` (lines 357-358), where `dims` is declared
`npy_intp *dims;` (line 228) and never assigned: a store through an
uninitialised pointer, which is undefined behaviour.  `undefinedStore` records
that the call reached this store, with the error indicator it holds at that
point; what the call does from there on is not defined. -/
inductive CPyResult where
  | failed (err : String)
  | undefinedStore (err : Option String)

namespace CPixelize

/-- The local `md = 2.0*sqrtl(dxsp*dxsp + dysp*dysp + dzsp*dzsp)`. -/
def md (sqrtl : ℚ → ℚ) (c : Cell3) : ℚ :=
  2 * sqrtl (c.dxsp * c.dxsp + c.dysp * c.dysp + c.dzsp * c.dzsp)

/-- The local `lc = max(floorl((pxsp-md-px_min)/px_dx),0)`. -/
def lc (sqrtl : ℚ → ℚ) (a : CPixelizeArgs) (c : Cell3) : Int :=
  max ⌊(c.pxsp - md sqrtl c - a.px_min) / a.px_dx⌋ 0

/-- The local `lr = max(floorl((pysp-md-py_min)/px_dy),0)`. -/
def lr (sqrtl : ℚ → ℚ) (a : CPixelizeArgs) (c : Cell3) : Int :=
  max ⌊(c.pysp - md sqrtl c - a.py_min) / a.px_dy⌋ 0

/-- The local `rc = min(ceill((pxsp+md-px_min)/px_dx),rows)`. -/
def rc (sqrtl : ℚ → ℚ) (a : CPixelizeArgs) (c : Cell3) : Int :=
  min ⌈(c.pxsp + md sqrtl c - a.px_min) / a.px_dx⌉ (a.rows : Int)

/-- The local `rr = min(ceill((pysp+md-py_min)/px_dy),cols)`. -/
def rr (sqrtl : ℚ → ℚ) (a : CPixelizeArgs) (c : Cell3) : Int :=
  min ⌈(c.pysp + md sqrtl c - a.py_min) / a.px_dy⌉ (a.cols : Int)

/-- The values of an `int` counter in `for (i = lo; i < hi; i++)` with
`lo ≥ 0`. -/
def intRange (lo hi : Int) : List Nat := List.range' lo.toNat (hi - lo).toNat

/-- The containment test of the innermost loop, for pixel `(j, i)`: the pixel
center `(cxpx, cypx)` is mapped to `(cx, cy, cz)` and compared with the cell. -/
def inside (a : CPixelizeArgs) (c : Cell3) (j i : Nat) : Prop :=
  let cypx := a.px_dy * ((i : ℚ) + 1 / 2) + a.py_min
  let cxpx := a.px_dx * ((j : ℚ) + 1 / 2) + a.px_min
  let cx := a.inv_mats 0 0 * cxpx + a.inv_mats 0 1 * cypx + a.centers 0
  let cy := a.inv_mats 1 0 * cxpx + a.inv_mats 1 1 * cypx + a.centers 1
  let cz := a.inv_mats 2 0 * cxpx + a.inv_mats 2 1 * cypx + a.centers 2
  ¬ (|c.xsp - cx| * (19 / 20) > c.dxsp ∨ |c.ysp - cy| * (19 / 20) > c.dysp ∨
      |c.zsp - cz| * (19 / 20) > c.dzsp)

instance (a : CPixelizeArgs) (c : Cell3) (j i : Nat) : Decidable (inside a c j i) := by
  unfold inside; infer_instance

/-- The body of `for (j=lc;j<rc;j++)`: `mask[j*cols+i] += 1;
gridded[j*cols+i] += dsp;` when the containment test passes. -/
def jBody (a : CPixelizeArgs) (c : Cell3) (i : Nat) (b : Buffers) (j : Nat) : Buffers :=
  if inside a c j i then
    ⟨fun q => if q = j * a.cols + i then b.gridded q + c.dsp else b.gridded q,
      fun q => if q = j * a.cols + i then b.mask q + 1 else b.mask q⟩
  else b

/-- The body of `for (i=lr;i<rr;i++)`. -/
def iBody (sqrtl : ℚ → ℚ) (a : CPixelizeArgs) (c : Cell3) (b : Buffers) (i : Nat) : Buffers :=
  (intRange (lc sqrtl a c) (rc sqrtl a c)).foldl (jBody a c i) b

/-- The body of `for(pp=0; pp<nx; pp++)` for the index `p = indices[pp]`. -/
def cellStep (sqrtl : ℚ → ℚ) (a : CPixelizeArgs) (b : Buffers) (p : Int) : Buffers :=
  let c := readCell3 a p
  if (c.pxsp + md sqrtl c < a.px_min ∨ c.pxsp - md sqrtl c > a.px_max) ∨
      (c.pysp + md sqrtl c < a.py_min ∨ c.pysp - md sqrtl c > a.py_max) then b
  else (intRange (lr sqrtl a c) (rr sqrtl a c)).foldl (iBody sqrtl a c) b

/-- The index `p` is inside each of the nine per-cell arrays: the nine reads
`*((npy_float64 *) PyArray_GETPTR1(arr, p))` at the head of the loop body are
reads of array elements. -/
def readable (a : CPixelizeArgs) (p : Int) : Prop :=
  0 ≤ p ∧ p < (a.xp.length : Int) ∧ p < (a.yp.length : Int) ∧ p < (a.zp.length : Int) ∧
    p < (a.pxp.length : Int) ∧ p < (a.pyp.length : Int) ∧ p < (a.dxp.length : Int) ∧
    p < (a.dyp.length : Int) ∧ p < (a.dzp.length : Int) ∧ p < (a.dp.length : Int)

instance (a : CPixelizeArgs) (p : Int) : Decidable (readable a p) := by
  unfold readable; infer_instance

/-- One turn of `for(pp=0; pp<nx; pp++)`: the read `p = indices[pp]`, the nine
reads at `p`, the rest of the body.  The source reads without a test; the
result is `none` (undefined behaviour) when `pp` is outside `indices` or `p`
is outside one of the nine arrays. -/
def loopBody (sqrtl : ℚ → ℚ) (a : CPixelizeArgs) (b : Buffers) (pp : Nat) : Option Buffers :=
  match a.indicesp[pp]? with
  | none => none
  | some p => if readable a p then some (cellStep sqrtl a b p) else none

/-- The zero fill `for(p=0;p<cols*rows;p++)gridded[p]=mask[p]=0.0;` and the
cell loop with `nx = PyArray_DIMS(x)[0]` (lines 368-405): the two buffers
after the loop, or `none` when a read falls outside its array. -/
def cellLoop (sqrtl : ℚ → ℚ) (a : CPixelizeArgs) : Option Buffers :=
  (List.range a.xp.length).foldlM (loopBody sqrtl a) ⟨fun _ => 0, fun _ => 0⟩

/-- The final `gridded[p]=gridded[p]/mask[p]`. -/
def divide (b : Buffers) (q : Nat) : Option ℚ :=
  if b.mask q = 0 then none else some (b.gridded q / b.mask q)

/-- The buffer `gridded` after the zero fill, the cell loop and the final
division (lines 368-406), by flat index; `none` when a read of the loop falls
outside its array. -/
def output (sqrtl : ℚ → ℚ) (a : CPixelizeArgs) : Option (Nat → Option ℚ) :=
  match cellLoop sqrtl a with
  | none => none
  | some b => some (divide b)

end CPixelize

/-- The function `Py_CPixelize` up to the store `dims[0] = rows;`: parse, the
zero-size test (which only sets the error indicator), the array tests in
source order (each a `goto _fail`; the tests after `z`, `px` and `py` compare
the sizes of `y` and `x`), and then the store through the uninitialised
pointer `dims`, where the defined behaviour of the call ends. -/
def Py_CPixelize (a : CPixelizeArgs) : CPyResult :=
  let e0 : Option String :=
    if a.rows = 0 ∨ a.cols = 0 then some "Cannot scale to zero size." else none
  if a.yp.length ≠ a.xp.length then
    .failed "y is of incorrect type (wanted 1D float)"
  else if a.yp.length ≠ a.xp.length then
    .failed "z is of incorrect type (wanted 1D float)"
  else if a.yp.length ≠ a.xp.length then
    .failed "px is of incorrect type (wanted 1D float)"
  else if a.yp.length ≠ a.xp.length then
    .failed "py is of incorrect type (wanted 1D float)"
  else if a.dp.length ≠ a.xp.length then
    .failed "data is of incorrect type (wanted 1D float)"
  else if a.dxp.length ≠ a.xp.length then
    .failed "dx is of incorrect type (wanted 1D float)"
  else if a.dyp.length ≠ a.xp.length then
    .failed "dy is of incorrect type (wanted 1D float)"
  else if a.dzp.length ≠ a.xp.length then
    .failed "dz is of incorrect type (wanted 1D float)"
  else if a.centerp.length ≠ 3 then
    .failed "Center must have three points"
  else if a.inv_mat_size ≠ 9 then
    .failed "inv_mat must be three by three"
  else if a.indicesp.length ≠ a.dxp.length then
    .failed "indices must be same length as dx"
  else
    .undefinedStore e0

/-- The `CPixelize` call with no cells, `rows = 0` (fourteenth argument) and
`cols = 1` (thirteenth argument), bounds `(0,1,0,1)`, center `(0,0,0)` and the
identity matrix. -/
def zeroRowsCArgs : CPixelizeArgs :=
  ⟨[], [], [], [], [], [], [], [], [0, 0, 0], [[1, 0, 0], [0, 1, 0], [0, 0, 1]], [], [],
    1, 0, 0, 1, 0, 1⟩

/-! ## Pixel-wise description of the loops of `Py_Pixelize` -/

/-- Pixel `(j, i)` is visited by the two pixel loops of one candidate position
and neither `continue` is taken. -/
def visits (P : Params) (c : Cell) (xsp ysp : ℚ) (j i : Nat) : Prop :=
  (i ∈ forRange (lr P c ysp) (rr P c ysp) ∧ ¬ overlap2 P c ysp i < 0) ∧
  (j ∈ forRange (lc P c xsp) (rc P c xsp) ∧ ¬ overlap1 P c xsp j < 0)

instance (P : Params) (c : Cell) (xsp ysp : ℚ) (j i : Nat) : Decidable (visits P c xsp ysp j i) := by
  unfold visits; infer_instance

/-- The new value the innermost statement stores in a visited pixel holding `v`. -/
def stored (P : Params) (c : Cell) (xsp ysp : ℚ) (j i : Nat) (v : ℚ) : ℚ :=
  if P.antialias = 1 then v + (c.dsp * overlap1 P c xsp j) * overlap2 P c ysp i else c.dsp

/-- The contribution factor of one axis: the overlap when the cell passes the
bounds test, the pixel is in the loop range and the overlap is not negative,
and nothing otherwise. -/
def axisFactor (h ih lo hi xl xr : ℚ) (n j : ℕ) : ℚ :=
  if ¬ (xr < lo ∨ xl > hi) ∧
      j ∈ forRange (c_max ((xl - lo) * ih) 0) (c_min ((xr - lo) * ih) n) ∧
      ¬ (c_min (h * ((j : ℚ) + 1) + lo) xr - c_max (h * (j : ℚ) + lo) xl) * ih < 0
  then (c_min (h * ((j : ℚ) + 1) + lo) xr - c_max (h * (j : ℚ) + lo) xl) * ih
  else 0

/-- What the body of the `yi` loop adds to pixel `(j, i)` when `antialias == 1`. -/
def yWeight (P : Params) (c : Cell) (xsp : ℚ) (j i : Nat) (yc : Int × ℚ) : ℚ :=
  if yc.1 = 999 then 0
  else if (c.oysp + yc.2) + c.dysp < P.y_min ∨ (c.oysp + yc.2) - c.dysp > P.y_max then 0
  else if visits P c xsp (c.oysp + yc.2) j i then
    (c.dsp * overlap1 P c xsp j) * overlap2 P c (c.oysp + yc.2) i
  else 0

/-- What the body of the `xi` loop adds to pixel `(j, i)` when `antialias == 1`. -/
def xWeight (P : Params) (c : Cell) (j i : Nat) (xc : Int × ℚ) : ℚ :=
  if xc.1 = 999 then 0
  else if (c.oxsp + xc.2) + c.dxsp < P.x_min ∨ (c.oxsp + xc.2) - c.dxsp > P.x_max then 0
  else ((yCandidates P c).map (yWeight P c (c.oxsp + xc.2) j i)).sum

/-- What one cell adds to pixel `(j, i)` when `antialias == 1`. -/
def cellWeight (P : Params) (j i : Nat) (c : Cell) : ℚ :=
  ((xCandidates P c).map (xWeight P c j i)).sum

/-- The cell's own position passes both bounds tests and pixel `(j, i)` lies in
both loop ranges computed for it. -/
def covers (P : Params) (c : Cell) (j i : Nat) : Prop :=
  ¬ (c.oxsp + c.dxsp < P.x_min ∨ c.oxsp - c.dxsp > P.x_max) ∧
  ¬ (c.oysp + c.dysp < P.y_min ∨ c.oysp - c.dysp > P.y_max) ∧
  j ∈ forRange (lc P c c.oxsp) (rc P c c.oxsp) ∧
  i ∈ forRange (lr P c c.oysp) (rr P c c.oysp)

instance (P : Params) (c : Cell) (j i : Nat) : Decidable (covers P c j i) := by
  unfold covers; infer_instance

/-- What the candidate position `(xsp, ysp)` of a cell adds to pixel `(j, i)`
when `antialias == 1`: the value times the two axis factors. -/
def candWeight (P : Params) (c : Cell) (xsp ysp : ℚ) (j i : Nat) : ℚ :=
  c.dsp * axisFactor P.px_dx P.ipx_dx P.x_min P.x_max (xsp - c.dxsp) (xsp + c.dxsp) P.rows j
    * axisFactor P.px_dy P.ipx_dy P.y_min P.y_max (ysp - c.dysp) (ysp + c.dysp) P.cols i

/-! ## Specification-side notions -/

/-- Length of the intersection of the intervals `[l1, r1]` and `[l2, r2]`
(zero when they do not meet or meet in a point). -/
def interLen (l1 r1 l2 r2 : ℚ) : ℚ := max 0 (min r1 r2 - max l1 l2)

/-- Area of the intersection of the rectangle of cell `c`,
`[x-hx, x+hx] x [y-hy, y+hy]`, with the rectangle of pixel `(j, i)`,
`[x_min + j*px_dx, x_min + (j+1)*px_dx] x [y_min + i*px_dy, y_min + (i+1)*px_dy]`. -/
def cellPixelArea (P : Params) (c : Cell) (j i : Nat) : ℚ :=
  interLen (P.x_min + (j : ℚ) * P.px_dx) (P.x_min + ((j : ℚ) + 1) * P.px_dx)
      (c.oxsp - c.dxsp) (c.oxsp + c.dxsp) *
    interLen (P.y_min + (i : ℚ) * P.px_dy) (P.y_min + ((i : ℚ) + 1) * P.px_dy)
      (c.oysp - c.dysp) (c.oysp + c.dysp)

/-- Sum of all pixels of the output array. -/
def gridSum (g : Grid) : ℚ :=
  ∑ j ∈ Finset.range g.dim0, ∑ i ∈ Finset.range g.dim1, g.data j i

/-- The value `t` clamped to `[xl, xr]`. -/
def clampTo (xl xr t : ℚ) : ℚ := max xl (min t xr)

/-- The value of pixel `(j, i)` in the words of the spec, written on the input
sequences themselves: the sum over all indices `p` of
`value[p] * area(cell rectangle ∩ pixel rectangle) / (px_dx * px_dy)`, where
the cell rectangle is `[x[p]-hx[p], x[p]+hx[p]] x [y[p]-hy[p], y[p]+hy[p]]`,
the pixel rectangle is
`[x_min + j*px_dx, x_min + (j+1)*px_dx] x [y_min + i*px_dy, y_min + (i+1)*px_dy]`,
`px_dx = (x_max-x_min)/rows` and `px_dy = (y_max-y_min)/cols`. -/
def areaWeightedSum (xs ys hxs hys vs : List ℚ) (rows cols : Nat)
    (x_min x_max y_min y_max : ℚ) (j i : Nat) : ℚ :=
  let px_dx := (x_max - x_min) / (rows : ℚ)
  let px_dy := (y_max - y_min) / (cols : ℚ)
  ∑ p ∈ Finset.range xs.length,
    vs.getD p 0 *
      (interLen (x_min + (j : ℚ) * px_dx) (x_min + ((j : ℚ) + 1) * px_dx)
          (xs.getD p 0 - hxs.getD p 0) (xs.getD p 0 + hxs.getD p 0) *
        interLen (y_min + (i : ℚ) * px_dy) (y_min + ((i : ℚ) + 1) * px_dy)
          (ys.getD p 0 - hys.getD p 0) (ys.getD p 0 + hys.getD p 0)) /
      (px_dx * px_dy)

/-- Pixel `(j, i)` lies in the pixel index range of the cell stored at index
`p` of the input sequences, written on the sequences themselves with the
operations of the source in their order: the cell's rectangle meets the
bounds, `j` runs from the truncation of `max((x[p]-hx[p]-x_min)*ipx_dx, 0)`
while `j < min((x[p]+hx[p]-x_min)*ipx_dx, rows)`, and `i` likewise on the y
axis, with `ipx_dx = 1/((x_max-x_min)/rows)` and `ipx_dy = 1/((y_max-y_min)/cols)`. -/
def inCellRange (xs ys hxs hys : List ℚ) (rows cols : Nat) (x_min x_max y_min y_max : ℚ)
    (p j i : Nat) : Prop :=
  let ipx_dx := 1 / ((x_max - x_min) / (rows : ℚ))
  let ipx_dy := 1 / ((y_max - y_min) / (cols : ℚ))
  ¬ (xs.getD p 0 + hxs.getD p 0 < x_min ∨ xs.getD p 0 - hxs.getD p 0 > x_max) ∧
  ¬ (ys.getD p 0 + hys.getD p 0 < y_min ∨ ys.getD p 0 - hys.getD p 0 > y_max) ∧
  (⌊max ((xs.getD p 0 - hxs.getD p 0 - x_min) * ipx_dx) 0⌋ ≤ (j : ℤ) ∧
    (j : ℚ) < min ((xs.getD p 0 + hxs.getD p 0 - x_min) * ipx_dx) (rows : ℚ)) ∧
  (⌊max ((ys.getD p 0 - hys.getD p 0 - y_min) * ipx_dy) 0⌋ ≤ (i : ℤ) ∧
    (i : ℚ) < min ((ys.getD p 0 + hys.getD p 0 - y_min) * ipx_dy) (cols : ℚ))

instance (xs ys hxs hys : List ℚ) (rows cols : Nat) (x_min x_max y_min y_max : ℚ)
    (p j i : Nat) :
    Decidable (inCellRange xs ys hxs hys rows cols x_min x_max y_min y_max p j i) := by
  unfold inCellRange; infer_instance

/-- The largest finite `double`, `DBL_MAX = (2 - 2^-52) * 2^1023`: a quotient
above it has no finite `double`. -/
def DBL_MAX : ℚ := (2 - 1 / 2 ^ 52) * 2 ^ 1023

/-! ## The cell loop of overwrite mode with the counter values given -/

/-- The zero fill and the cell loop of `Py_Pixelize` in overwrite mode without
periodic images (`antialias != 1`, `check_period != 1`), for cells whose
counter values are given: `ranges c = (J, I)` lists the values that the
counters `j` and `i` take for cell `c`, however the arithmetic arrives at them
(no values for a cell skipped by a bounds test), all inside the grid.  Every
cell in turn stores its value at the pixels `(j, i)`, `i` in `I`, `j` in `J`. -/
def overwriteLoop {ι : Type} (ranges : ι → List Nat × List Nat) (val : ι → ℚ)
    (cs : List ι) : Pixels :=
  cs.foldl
    (fun g c => (ranges c).2.foldl (fun g i => (ranges c).1.foldl (fun g j => g.set j i (val c)) g) g)
    zeroPixels

/-- The counter values of cell `c` in exact arithmetic: none when one of the
two bounds tests skips the cell, else the values of `for (j=lc;j<rc;j++)` and
of `for (i=lr;i<rr;i++)`. -/
def loopRanges (P : Params) (c : Cell) : List Nat × List Nat :=
  if (c.oxsp + c.dxsp < P.x_min ∨ c.oxsp - c.dxsp > P.x_max) ∨
      (c.oysp + c.dysp < P.y_min ∨ c.oysp - c.dysp > P.y_max) then ([], [])
  else (forRange (lc P c c.oxsp) (rc P c c.oxsp), forRange (lr P c c.oysp) (rr P c c.oysp))

/-! ## Concrete inputs -/

/-- One cell at `(1,1)` with half-widths `(1,1)` and value 1 on a 1 x 1 grid
over `(0,2,0,2)`, antialias on, `check_period = 0`: the cell covers the single
pixel, whose area is 4. -/
def areaArgs : PixelizeArgs :=
  ⟨[1], [1], [1], [1], [1], 1, 1, 0, 2, 0, 2, .all 1 0 0 0⟩

/-- Two cells on a 3 x 1 grid over `(-1,2,-1,1)` (`px_dx = 1`), antialias off,
`check_period = 0`: the first, of value 4, spans `[-1,1]` on the x axis, the
second, of value 7, spans `[0,1]`. -/
def layeredArgs : PixelizeArgs :=
  ⟨[0, 1 / 2], [0, 0], [1, 1 / 2], [1, 1], [4, 7], 1, 3, -1, 2, -1, 1, .all 0 0 0 0⟩

/-- Two cells on a 2 x 2 grid over `(-1,1,-1,1)`, antialias on,
`check_period = 0`: the first, of value 4, covers the grid, the second, of
value 8, is the square `[0,1] x [0,1]`. -/
def overlapArgs : PixelizeArgs :=
  ⟨[0, 1 / 2], [0, 1 / 2], [1, 1 / 2], [1, 1 / 2], [4, 8], 2, 2, -1, 1, -1, 1, .all 1 0 0 0⟩

/-- The call `Pixelize([3*2^-1033], [0.5], [2^-1033], [0.5], [1.0], 1, 1,
(0.0, 2^-1030, 0.0, 1.0), 0, (0.0, 0.0), 0)`: a 1 x 1 grid whose x extent is
the subnormal `2^-1030`, one cell with x edges `2^-1032` and `2^-1031`,
antialias off, `check_period = 0`.  All the values are doubles. -/
def tinyBoundsArgs : PixelizeArgs :=
  ⟨[3 / 2 ^ 1033], [1 / 2], [1 / 2 ^ 1033], [1 / 2], [1], 1, 1, 0, 1 / 2 ^ 1030, 0, 1,
    .all 0 0 0 0⟩

/-- A cell straddling `x_min` on a 4 x 1 grid over `(0,4,0,1)` with
`period_x = 4`, antialias on, and the given `check_period`. -/
def wrapArgs (check_period : Int) : PixelizeArgs :=
  ⟨[1/2], [1/2], [1], [1/2], [1], 1, 4, 0, 4, 0, 1, .all 1 4 0 check_period⟩

/-- No cells, a 2 x 3 grid over `(0,1,0,1)`, optional arguments omitted. -/
def emptyArgs : PixelizeArgs :=
  ⟨[], [], [], [], [], 3, 2, 0, 1, 0, 1, .omitted⟩

/-- No cells, a 2 x 2 grid, and the degenerate bounds `(0,0,0,1)`
(`x_max = x_min`). -/
def degenerateArgs : PixelizeArgs :=
  ⟨[], [], [], [], [], 2, 2, 0, 0, 0, 1, .omitted⟩

/-- One cell whose `values` sequence has two entries. -/
def mismatchArgs : PixelizeArgs :=
  ⟨[0], [0], [1], [1], [4, 5], 2, 2, -1, 1, -1, 1, .omitted⟩

/-- No cells, `rows = 0` (seventh argument) and `cols = 1` (sixth argument),
bounds `(0,1,0,1)`. -/
def zeroRowsArgs : PixelizeArgs :=
  ⟨[], [], [], [], [], 1, 0, 0, 1, 0, 1, .omitted⟩

/-! ## Pixel-wise description of the loops of `Py_CPixelize` -/

namespace CPixelize

/-- The selected cell `c` passes the early rejection test and pixel `(j, i)`
lies in its candidate range: `i` runs from `lr` to `rr`, `j` from `lc` to
`rc`. -/
def inCandidateRange (sqrtl : ℚ → ℚ) (a : CPixelizeArgs) (c : Cell3) (j i : Nat) : Prop :=
  ¬ ((c.pxsp + md sqrtl c < a.px_min ∨ c.pxsp - md sqrtl c > a.px_max) ∨
      (c.pysp + md sqrtl c < a.py_min ∨ c.pysp - md sqrtl c > a.py_max)) ∧
  i ∈ intRange (lr sqrtl a c) (rr sqrtl a c) ∧ j ∈ intRange (lc sqrtl a c) (rc sqrtl a c)

instance (sqrtl : ℚ → ℚ) (a : CPixelizeArgs) (c : Cell3) (j i : Nat) :
    Decidable (inCandidateRange sqrtl a c j i) := by
  unfold inCandidateRange; infer_instance

/-- The selected cell `c` reaches the statements `mask[j*cols+i] += 1;
gridded[j*cols+i] += dsp;` for pixel `(j, i)`. -/
def hits (sqrtl : ℚ → ℚ) (a : CPixelizeArgs) (c : Cell3) (j i : Nat) : Prop :=
  inCandidateRange sqrtl a c j i ∧ inside a c j i

instance (sqrtl : ℚ → ℚ) (a : CPixelizeArgs) (c : Cell3) (j i : Nat) :
    Decidable (hits sqrtl a c j i) := by
  unfold hits; infer_instance

/-- The two buffer entries of the flat index `q`: `(gridded[q], mask[q])`. -/
def entry (q : Nat) (b : Buffers) : ℚ × ℚ := (b.gridded q, b.mask q)

/-- What a hit of cell `c` does to the entry of a pixel. -/
def bump (c : Cell3) (e : ℚ × ℚ) : ℚ × ℚ := (e.1 + c.dsp, e.2 + 1)

end CPixelize

namespace CPixelize

/-- Component `r` of the world point of pixel `(j, i)`, in the words of the
spec: `world = inverse_transform · (cxpx, cypx, 0) + plane_center`, with
`(cxpx, cypx)` the center of the pixel in plane coordinates. -/
def world (a : CPixelizeArgs) (j i r : Nat) : ℚ :=
  let cxpx := a.px_min + ((j : ℚ) + 1 / 2) * a.px_dx
  let cypx := a.py_min + ((i : ℚ) + 1 / 2) * a.px_dy
  (a.inv_mats r 0 * cxpx + a.inv_mats r 1 * cypx + a.inv_mats r 2 * 0) + a.centers r

/-- The containment test in the words of the spec: on all three axes
`|cell_center_axis - world_axis| * 0.95 <= half_width_axis`. -/
def containsWorld (a : CPixelizeArgs) (c : Cell3) (j i : Nat) : Prop :=
  |c.xsp - world a j i 0| * (19 / 20) ≤ c.dxsp ∧
  |c.ysp - world a j i 1| * (19 / 20) ≤ c.dysp ∧
  |c.zsp - world a j i 2| * (19 / 20) ≤ c.dzsp

/-- The cell stored at index `p` of the nine input arrays contributes to pixel
`(j, i)`, written on the input sequences themselves: with
`md = 2 * sqrtl(dx[p]^2 + dy[p]^2 + dz[p]^2)`, the square of half-side `md`
around the plane position `(px[p], py[p])` meets the plane bounds, `i` and `j`
lie in the candidate ranges
`max(floor((py[p]-md-py_min)/px_dy), 0) <= i < min(ceil((py[p]+md-py_min)/px_dy), cols)`,
`max(floor((px[p]-md-px_min)/px_dx), 0) <= j < min(ceil((px[p]+md-px_min)/px_dx), rows)`,
and the world point of the pixel passes the containment test on the three
axes. -/
def cellHits (sqrtl : ℚ → ℚ) (a : CPixelizeArgs) (p j i : Nat) : Prop :=
  let md := 2 * sqrtl (a.dxp.getD p 0 * a.dxp.getD p 0 + a.dyp.getD p 0 * a.dyp.getD p 0 +
    a.dzp.getD p 0 * a.dzp.getD p 0)
  ¬ ((a.pxp.getD p 0 + md < a.px_min ∨ a.pxp.getD p 0 - md > a.px_max) ∨
      (a.pyp.getD p 0 + md < a.py_min ∨ a.pyp.getD p 0 - md > a.py_max)) ∧
  (max ⌊(a.pyp.getD p 0 - md - a.py_min) / a.px_dy⌋ 0 ≤ (i : Int) ∧
    (i : Int) < min ⌈(a.pyp.getD p 0 + md - a.py_min) / a.px_dy⌉ (a.cols : Int)) ∧
  (max ⌊(a.pxp.getD p 0 - md - a.px_min) / a.px_dx⌋ 0 ≤ (j : Int) ∧
    (j : Int) < min ⌈(a.pxp.getD p 0 + md - a.px_min) / a.px_dx⌉ (a.rows : Int)) ∧
  (|a.xp.getD p 0 - world a j i 0| * (19 / 20) ≤ a.dxp.getD p 0 ∧
    |a.yp.getD p 0 - world a j i 1| * (19 / 20) ≤ a.dyp.getD p 0 ∧
    |a.zp.getD p 0 - world a j i 2| * (19 / 20) ≤ a.dzp.getD p 0)

instance (sqrtl : ℚ → ℚ) (a : CPixelizeArgs) (p j i : Nat) :
    Decidable (cellHits sqrtl a p j i) := by
  unfold cellHits; infer_instance

/-- The entries of the selection sequence whose cell contributes to pixel
`(j, i)`, in selection order. -/
def hitting (sqrtl : ℚ → ℚ) (a : CPixelizeArgs) (j i : Nat) : List Int :=
  a.indicesp.filter (fun p => decide (cellHits sqrtl a p.toNat j i))

end CPixelize

/-- A `CPixelize` call with one cell at the origin (plane position `(0,0)`,
half-widths `(1,1,1)`, value 4), selection `[0]`, a 1 x 1 grid over
`(-1,1,-1,1)`, center `(0,0,0)` and the identity matrix. -/
def oneCellCArgs : CPixelizeArgs :=
  ⟨[0], [0], [0], [0], [0], [1], [1], [1], [0, 0, 0], [[1, 0, 0], [0, 1, 0], [0, 0, 1]], [0],
    [4], 1, 1, -1, 1, -1, 1⟩

/-- The call `a` with its nine per-cell arrays replaced. -/
def withCells (a : CPixelizeArgs) (xp yp zp pxp pyp dxp dyp dzp dp : List ℚ) : CPixelizeArgs :=
  ⟨xp, yp, zp, pxp, pyp, dxp, dyp, dzp, a.centerp, a.inv_matp, a.indicesp, dp,
    a.arg13, a.arg14, a.b0, a.b1, a.b2, a.b3⟩

/-- A population of `M = 2` cells with the selection `[0]` of length `K = 1`:
a 1 x 1 grid over `(-1,1,-1,1)`, center `(0,0,0)`, the identity matrix. -/
def shortSelectionCArgs : CPixelizeArgs :=
  ⟨[0, 5], [0, 5], [0, 5], [0, 5], [0, 5], [1, 1], [1, 1], [1, 1], [0, 0, 0],
    [[1, 0, 0], [0, 1, 0], [0, 0, 1]], [0], [4, 9], 1, 1, -1, 1, -1, 1⟩

/-- A population of `M = 2` cells at the origin (half-widths `(2,1,2)`, values
4 and 9) with the selection `[1, 1]` of length `K = M`, on a 1 x 1 grid over
`(-1,1,-1,1)`: cell 1 is listed twice and cell 0 is not listed. -/
def fullSelectionCArgs : CPixelizeArgs :=
  ⟨[0, 0], [0, 0], [0, 0], [0, 0], [0, 0], [2, 2], [1, 1], [2, 2], [0, 0, 0],
    [[1, 0, 0], [0, 1, 0], [0, 0, 1]], [1, 1], [4, 9], 1, 1, -1, 1, -1, 1⟩

/-- The sequences `u` and `v` hold the same value at every index listed in `L`. -/
def agreeOn (L : List Int) (u v : List ℚ) : Prop :=
  ∀ p ∈ L, u.getD p.toNat 0 = v.getD p.toNat 0

/-- The call `oneCellCArgs` with an empty `z` array: its length differs from
the length 1 of `x`. -/
def shortZCArgs : CPixelizeArgs :=
  ⟨[0], [0], [], [0], [0], [1], [1], [1], [0, 0, 0], [[1, 0, 0], [0, 1, 0], [0, 0, 1]], [0],
    [4], 1, 1, -1, 1, -1, 1⟩

/-- The call `oneCellCArgs` with an empty `dz` array. -/
def shortDzCArgs : CPixelizeArgs :=
  ⟨[0], [0], [0], [0], [0], [1], [1], [], [0, 0, 0], [[1, 0, 0], [0, 1, 0], [0, 0, 1]], [0],
    [4], 1, 1, -1, 1, -1, 1⟩

/-- One cell at the origin (plane position `(0,0)`, half-widths `(2,1,2)`,
value 4), selection `[0]`, a 2 x 1 grid over `(-1,7,-1,1)` (`rows = 2`,
`cols = 1`, `px_dx = 4`, `px_dy = 2`), center `(0,0,0)` and the identity
matrix.  Here `dx^2 + dy^2 + dz^2 = 9`. -/
def twoPixelCArgs : CPixelizeArgs :=
  ⟨[0], [0], [0], [0], [0], [2], [1], [2], [0, 0, 0], [[1, 0, 0], [0, 1, 0], [0, 0, 1]], [0],
    [4], 1, 2, -1, 7, -1, 1⟩

/-- A function that agrees with the square root at 9 (and at 0). -/
def sqrtAtNine (t : ℚ) : ℚ := t / 3

/-- The call `oneCellCArgs` with the selection `[5]`: the index 5 is outside
`[0, M)` for the `M = 1` cell. -/
def badIndexCArgs : CPixelizeArgs :=
  ⟨[0], [0], [0], [0], [0], [1], [1], [1], [0, 0, 0], [[1, 0, 0], [0, 1, 0], [0, 0, 1]], [5],
    [4], 1, 1, -1, 1, -1, 1⟩

/-- The call `Pixelize([], [], [], [], [], 2, 3, (0, 1, 0, 1))`: sixth argument
2, seventh argument 3, no cells. -/
def dimsArgs : PixelizeArgs :=
  ⟨[], [], [], [], [], 2, 3, 0, 1, 0, 1, .omitted⟩

/-- The call `a` with its five sequences rearranged by `σ`: entry `k` of each
new sequence is entry `σ[k]` of the old one. -/
def permuteArgs (a : PixelizeArgs) (σ : List Nat) : PixelizeArgs :=
  ⟨σ.map (fun p => a.xp.getD p 0), σ.map (fun p => a.yp.getD p 0),
    σ.map (fun p => a.dxp.getD p 0), σ.map (fun p => a.dyp.getD p 0),
    σ.map (fun p => a.dp.getD p 0), a.arg6, a.arg7, a.b0, a.b1, a.b2, a.b3, a.opt⟩

/-- A call with a single cell. -/
def singleCellArgs (x y hx hy v : ℚ) (n6 n7 : Nat) (b0 b1 b2 b3 : ℚ) (opt : OptArgs) :
    PixelizeArgs :=
  ⟨[x], [y], [hx], [hy], [v], n6, n7, b0, b1, b2, b3, opt⟩

/-- One cell at `(1/2, 1/2)` with half-widths `(1, 1/2)` and value 1 on a 4 x 1
grid over `(0,4,0,1)`: the cell crosses `x_min` and lies within the y bounds. -/
def crossArgs (opt : OptArgs) : PixelizeArgs :=
  singleCellArgs (1 / 2) (1 / 2) 1 (1 / 2) 1 1 4 0 4 0 1 opt

/-- Two cells on a 2 x 2 grid over `(-1,1,-1,1)` with the optional arguments
omitted. -/
def twoCellArgs : PixelizeArgs :=
  ⟨[0, 1 / 2], [0, 1 / 2], [1, 1], [1, 1], [4, 7], 2, 2, -1, 1, -1, 1, .omitted⟩

/-! # Lemmas -/

/-! ## The two pixel loops, pixel by pixel -/

theorem foldl_untouched {ι : Type} (F : Pixels → ι → Pixels) (j i : Nat) (L : List ι)
    (g : Pixels) (h : ∀ k ∈ L, ∀ g : Pixels, F g k j i = g j i) :
    L.foldl F g j i = g j i := by
  induction L generalizing g with
  | nil => rfl
  | cons k L ih =>
    rw [List.foldl_cons, ih _ (fun k1 hk1 => h k1 (List.mem_cons_of_mem _ hk1))]
    exact h k (List.mem_cons_self _ _) g

theorem foldl_touch_once {ι : Type} [DecidableEq ι] (F : Pixels → ι → Pixels) (j i : Nat)
    (k0 : ι) (u : ℚ → ℚ) (L : List ι) (hL : L.Nodup) (g : Pixels)
    (h1 : ∀ k, k ≠ k0 → ∀ g : Pixels, F g k j i = g j i)
    (h2 : ∀ g : Pixels, F g k0 j i = u (g j i)) :
    L.foldl F g j i = if k0 ∈ L then u (g j i) else g j i := by
  induction L generalizing g with
  | nil => simp
  | cons k L ih =>
    rw [List.nodup_cons] at hL
    rw [List.foldl_cons]
    by_cases hk : k = k0
    · subst hk
      rw [foldl_untouched F j i L _ (fun k1 hk1 g1 => h1 k1 (fun e => hL.1 (e ▸ hk1)) g1)]
      simp [h2]
    · rw [ih hL.2, h1 k hk]
      simp [List.mem_cons, Ne.symm hk]

theorem forRange_nodup (lo hi : ℚ) : (forRange lo hi).Nodup := by
  unfold forRange
  exact List.nodup_range' _ _

theorem mem_forRange {lo hi : ℚ} (hlo : 0 ≤ lo) (n : Nat) :
    n ∈ forRange lo hi ↔ ⌊lo⌋ ≤ (n : Int) ∧ (n : ℚ) < hi := by
  have h0 : (0 : Int) ≤ ⌊lo⌋ := Int.floor_nonneg.mpr hlo
  have h1 : (n : ℚ) < hi ↔ (n : Int) < ⌈hi⌉ := by
    rw [Int.lt_ceil]; simp
  unfold forRange
  rw [List.mem_range'_1, h1]
  omega

theorem jLoop_apply (P : Params) (c : Cell) (xsp ysp : ℚ) (i : Nat) (L : List Nat)
    (hL : L.Nodup) (g : Pixels) (j1 i1 : Nat) :
    L.foldl (jBody P c xsp ysp i) g j1 i1 =
      if i1 = i ∧ j1 ∈ L ∧ ¬ overlap1 P c xsp j1 < 0 then stored P c xsp ysp j1 i1 (g j1 i1)
      else g j1 i1 := by
  by_cases hi : i1 = i
  · subst hi
    rw [foldl_touch_once (jBody P c xsp ysp i1) j1 i1 j1
      (fun v => if overlap1 P c xsp j1 < 0 then v else stored P c xsp ysp j1 i1 v) L hL g]
    · by_cases hm : j1 ∈ L <;> by_cases ho : overlap1 P c xsp j1 < 0 <;> simp [hm, ho]
    · intro k hk g1
      unfold jBody Pixels.set
      split_ifs <;> simp_all [eq_comm]
    · intro g1
      unfold jBody Pixels.set stored
      split_ifs <;> simp_all
  · rw [foldl_untouched]
    · simp [hi]
    · intro k _ g1
      unfold jBody Pixels.set
      split_ifs <;> simp_all

theorem deposit_apply (P : Params) (c : Cell) (xsp ysp : ℚ) (g : Pixels) (j i : Nat) :
    deposit P c xsp ysp g j i =
      if visits P c xsp ysp j i then stored P c xsp ysp j i (g j i) else g j i := by
  unfold deposit
  rw [foldl_touch_once (iBody P c xsp ysp) j i i
    (fun v => if ¬ overlap2 P c ysp i < 0 ∧ j ∈ forRange (lc P c xsp) (rc P c xsp)
      ∧ ¬ overlap1 P c xsp j < 0 then stored P c xsp ysp j i v else v) _
    (forRange_nodup _ _) g]
  · unfold visits
    by_cases h1 : i ∈ forRange (lr P c ysp) (rr P c ysp) <;>
    by_cases h2 : overlap2 P c ysp i < 0 <;>
    by_cases h3 : j ∈ forRange (lc P c xsp) (rc P c xsp) ∧ ¬ overlap1 P c xsp j < 0 <;>
    simp [h1, h2, h3]
  · intro k hk g1
    unfold iBody
    split_ifs
    · rfl
    · rw [jLoop_apply _ _ _ _ _ _ (forRange_nodup _ _)]
      simp [Ne.symm hk]
  · intro g1
    by_cases h2 : overlap2 P c ysp i < 0
    · simp [iBody, h2]
    · rw [iBody, if_neg h2, jLoop_apply _ _ _ _ _ _ (forRange_nodup _ _)]
      simp [h2]

/-! ## One axis: the loop range and the overlap against interval intersection -/

theorem c_min_eq (a b : ℚ) : c_min a b = min a b := by
  unfold c_min
  rcases lt_or_le a b with h | h
  · rw [if_pos h, min_eq_left h.le]
  · rw [if_neg (not_lt.mpr h), min_eq_right h]

theorem c_max_eq (a b : ℚ) : c_max a b = max a b := by
  unfold c_max
  rcases lt_or_le b a with h | h
  · rw [if_pos h, max_eq_left h.le]
  · rw [if_neg (not_lt.mpr h), max_eq_right h]

/-- The index test of one axis: `j` lies in the loop range computed from the
edges `xl`, `xr` of a cell, for an axis `[lo, lo + h * n]` cut in `n` pixels of
extent `h`, with `ih = 1 / h`. -/
theorem mem_axis_range {h ih lo xl xr : ℚ} {n : ℕ} (hh : 0 < h) (hih : ih = 1 / h) (j : ℕ) :
    j ∈ forRange (c_max ((xl - lo) * ih) 0) (c_min ((xr - lo) * ih) n) ↔
      (xl < h * ((j : ℚ) + 1) + lo ∧ h * (j : ℚ) + lo < xr ∧ j < n) := by
  have hlo : (0 : ℚ) ≤ c_max ((xl - lo) * ih) 0 := by
    rw [c_max_eq]; exact le_max_right _ _
  rw [mem_forRange hlo, c_min_eq, c_max_eq, lt_min_iff, hih]
  have e1 : ∀ t : ℚ, t * (1 / h) = t / h := fun t => by ring
  rw [e1, e1, lt_div_iff₀ hh, Nat.cast_lt]
  have key : ⌊max ((xl - lo) / h) 0⌋ ≤ (j : ℤ) ↔ xl < h * ((j : ℚ) + 1) + lo := by
    rw [← Int.lt_add_one_iff, Int.floor_lt, max_lt_iff, div_lt_iff₀ hh]
    push_cast
    constructor
    · rintro ⟨h1, _⟩; linarith
    · intro h1
      refine ⟨by linarith, ?_⟩
      have : (0 : ℚ) ≤ (j : ℚ) := Nat.cast_nonneg j
      linarith
  rw [key]
  constructor
  · rintro ⟨h1, h2, h3⟩; exact ⟨h1, by linarith, h3⟩
  · rintro ⟨h1, h2, h3⟩; exact ⟨h1, by linarith, h3⟩

theorem axisFactor_eq {h ih lo hi xl xr : ℚ} {n : ℕ} (hh : 0 < h) (hih : ih = 1 / h)
    (hn : h * (n : ℚ) = hi - lo) (j : ℕ) (hj : j < n) :
    axisFactor h ih lo hi xl xr n j =
      interLen (h * (j : ℚ) + lo) (h * ((j : ℚ) + 1) + lo) xl xr / h := by
  have hj0 : (0 : ℚ) ≤ (j : ℚ) := Nat.cast_nonneg j
  have hj1 : (j : ℚ) + 1 ≤ (n : ℚ) := by exact_mod_cast hj
  have hl : lo ≤ h * (j : ℚ) + lo := by nlinarith
  have hr : h * ((j : ℚ) + 1) + lo ≤ hi := by nlinarith
  have e1 : ∀ t : ℚ, t * ih = t / h := fun t => by rw [hih]; ring
  unfold axisFactor interLen
  simp only [mem_axis_range hh hih]
  simp only [c_min_eq, c_max_eq, e1]
  set d := min (h * ((j : ℚ) + 1) + lo) xr - max (h * (j : ℚ) + lo) xl with hd
  have d1 : d ≤ h * ((j : ℚ) + 1) + lo - xl := by
    have := min_le_left (h * ((j : ℚ) + 1) + lo) xr
    have := le_max_right (h * (j : ℚ) + lo) xl
    linarith
  have d2 : d ≤ xr - (h * (j : ℚ) + lo) := by
    have := min_le_right (h * ((j : ℚ) + 1) + lo) xr
    have := le_max_left (h * (j : ℚ) + lo) xl
    linarith
  by_cases hd0 : 0 ≤ d
  · have hpos : ¬ d / h < 0 := not_lt.mpr (div_nonneg hd0 hh.le)
    rw [max_eq_right hd0]
    by_cases hd1 : d = 0
    · simp [hd1]
    · have hdpos : 0 < d := lt_of_le_of_ne hd0 (Ne.symm hd1)
      rw [if_pos]
      refine ⟨?_, ⟨?_, ?_, hj⟩, hpos⟩
      · push_neg; constructor <;> linarith
      · linarith
      · linarith
  · have hneg : d / h < 0 := div_neg_of_neg_of_pos (not_le.mp hd0) hh
    rw [max_eq_left (not_le.mp hd0).le]
    simp [hneg]

/-! ## Antialiased mode: every loop level adds a weight to the pixel -/

theorem foldl_additive {ι : Type} (F : Pixels → ι → Pixels) (j i : Nat) (w : ι → ℚ)
    (h : ∀ (g : Pixels) (k : ι), F g k j i = g j i + w k) (L : List ι) (g : Pixels) :
    L.foldl F g j i = g j i + (L.map w).sum := by
  induction L generalizing g with
  | nil => simp
  | cons k L ih => rw [List.foldl_cons, ih, h, List.map_cons, List.sum_cons, add_assoc]

theorem yiBody_antialias (P : Params) (haa : P.antialias = 1) (c : Cell) (xsp : ℚ)
    (j i : Nat) (g : Pixels) (yc : Int × ℚ) :
    yiBody P c xsp g yc j i = g j i + yWeight P c xsp j i yc := by
  unfold yiBody yWeight
  by_cases h1 : yc.1 = 999
  · simp [h1]
  · by_cases h2 : (c.oysp + yc.2) + c.dysp < P.y_min ∨ (c.oysp + yc.2) - c.dysp > P.y_max
    · simp [h1, h2]
    · simp only [if_neg h1, if_neg h2, deposit_apply, stored, if_pos haa]
      by_cases h3 : visits P c xsp (c.oysp + yc.2) j i <;> simp [h3]

theorem xiBody_antialias (P : Params) (haa : P.antialias = 1) (c : Cell)
    (j i : Nat) (g : Pixels) (xc : Int × ℚ) :
    xiBody P c g xc j i = g j i + xWeight P c j i xc := by
  unfold xiBody xWeight
  by_cases h1 : xc.1 = 999
  · simp [h1]
  · by_cases h2 : (c.oxsp + xc.2) + c.dxsp < P.x_min ∨ (c.oxsp + xc.2) - c.dxsp > P.x_max
    · simp [h1, h2]
    · simp only [if_neg h1, if_neg h2]
      exact foldl_additive _ j i _ (fun g1 k => yiBody_antialias P haa c _ j i g1 k) _ g

theorem cellStep_antialias (P : Params) (haa : P.antialias = 1) (j i : Nat) (g : Pixels)
    (c : Cell) : cellStep P g c j i = g j i + cellWeight P j i c := by
  unfold cellStep cellWeight
  exact foldl_additive _ j i _ (fun g1 k => xiBody_antialias P haa c j i g1 k) _ g

theorem cellLoop_antialias (P : Params) (haa : P.antialias = 1) (cs : List Cell) (j i : Nat) :
    cellLoop P cs j i = (cs.map (cellWeight P j i)).sum := by
  unfold cellLoop
  rw [foldl_additive _ j i _ (fun g1 k => cellStep_antialias P haa j i g1 k)]
  simp [zeroPixels]

theorem ite_and_mul (A B : Prop) [Decidable A] [Decidable B] (d u v : ℚ) :
    (if B ∧ A then d * u * v else 0) = d * (if A then u else 0) * (if B then v else 0) := by
  by_cases hA : A <;> by_cases hB : B <;> simp [hA, hB]

/-- Without periodic images and with `antialias == 1` the weight of a cell is
the value times the two axis factors. -/
theorem cellWeight_noperiod (P : Params) (haa : P.antialias = 1) (hcp : P.check_period ≠ 1)
    (j i : Nat) (c : Cell) :
    cellWeight P j i c =
      c.dsp * axisFactor P.px_dx P.ipx_dx P.x_min P.x_max (c.oxsp - c.dxsp) (c.oxsp + c.dxsp) P.rows j
        * axisFactor P.px_dy P.ipx_dy P.y_min P.y_max (c.oysp - c.dysp) (c.oysp + c.dysp) P.cols i := by
  have e9 : ((999 : Int) = 999) = True := by simp
  have e0 : ((0 : Int) = 999) = False := by simp
  simp only [cellWeight, xCandidates, yCandidates, if_neg hcp, xWeight, yWeight, List.map_cons,
    List.map_nil, List.sum_cons, List.sum_nil, add_zero, if_true, if_false, e9, e0, visits,
    axisFactor, lc, rc, lr, rr, overlap1, overlap2, if_pos haa]
  by_cases h1 : c.oxsp + c.dxsp < P.x_min ∨ c.oxsp - c.dxsp > P.x_max
  · simp only [h1, if_true, not_true_eq_false, false_and, if_false, mul_zero, zero_mul]
  · by_cases h2 : c.oysp + c.dysp < P.y_min ∨ c.oysp - c.dysp > P.y_max
    · simp only [h2, if_true, not_true_eq_false, false_and, if_false, mul_zero, zero_mul,
        ite_self]
    · simp only [h1, h2, if_false, not_false_eq_true, true_and]
      exact ite_and_mul _ _ _ _ _

/-! ## Facts about the pixel extents -/

theorem px_dx_pos (P : Params) (hrows : 0 < P.rows) (hx : P.x_min < P.x_max) : 0 < P.px_dx := by
  unfold Params.px_dx Params.width
  have : (0 : ℚ) < (P.rows : ℚ) := by exact_mod_cast hrows
  exact div_pos (by linarith) this

theorem px_dy_pos (P : Params) (hcols : 0 < P.cols) (hy : P.y_min < P.y_max) : 0 < P.px_dy := by
  unfold Params.px_dy Params.height
  have : (0 : ℚ) < (P.cols : ℚ) := by exact_mod_cast hcols
  exact div_pos (by linarith) this

theorem px_dx_mul_rows (P : Params) (hrows : 0 < P.rows) :
    P.px_dx * (P.rows : ℚ) = P.x_max - P.x_min := by
  unfold Params.px_dx Params.width
  have : (P.rows : ℚ) ≠ 0 := by exact_mod_cast hrows.ne.symm
  field_simp

theorem px_dy_mul_cols (P : Params) (hcols : 0 < P.cols) :
    P.px_dy * (P.cols : ℚ) = P.y_max - P.y_min := by
  unfold Params.px_dy Params.height
  have : (P.cols : ℚ) ≠ 0 := by exact_mod_cast hcols.ne.symm
  field_simp

/-- The result of `Py_Pixelize` when the four size tests pass. -/
theorem Py_Pixelize_of_lengths (a : PixelizeArgs)
    (hlen : a.yp.length = a.xp.length ∧ a.dxp.length = a.xp.length ∧
      a.dyp.length = a.xp.length ∧ a.dp.length = a.xp.length) :
    Py_Pixelize a =
      ⟨some ⟨(parseArgs a).rows, (parseArgs a).cols,
          cellLoop (parseArgs a) (cells a.xp a.yp a.dxp a.dyp a.dp a.xp.length)⟩,
        if (parseArgs a).rows = 0 ∨ (parseArgs a).cols = 0 then some "Cannot scale to zero size."
        else none,
        true⟩ := by
  obtain ⟨h1, h2, h3, h4⟩ := hlen
  simp [Py_Pixelize, h1, h2, h3, h4]

/-! ## The specification side of the antialiased deposit -/

/-- Antialiased, non-periodic weight of one cell in one pixel of the grid. -/
theorem cellWeight_eq_area (P : Params) (hrows : 0 < P.rows) (hcols : 0 < P.cols)
    (hx : P.x_min < P.x_max) (hy : P.y_min < P.y_max) (haa : P.antialias = 1)
    (hcp : P.check_period ≠ 1) (c : Cell) (j i : Nat) (hj : j < P.rows) (hi : i < P.cols) :
    cellWeight P j i c = c.dsp * cellPixelArea P c j i / (P.px_dx * P.px_dy) := by
  have fx : axisFactor P.px_dx P.ipx_dx P.x_min P.x_max (c.oxsp - c.dxsp) (c.oxsp + c.dxsp)
      P.rows j = _ := axisFactor_eq (px_dx_pos P hrows hx) rfl (px_dx_mul_rows P hrows) j hj
  have fy : axisFactor P.px_dy P.ipx_dy P.y_min P.y_max (c.oysp - c.dysp) (c.oysp + c.dysp)
      P.cols i = _ := axisFactor_eq (px_dy_pos P hcols hy) rfl (px_dy_mul_cols P hcols) i hi
  rw [cellWeight_noperiod P haa hcp, fx, fy]
  unfold cellPixelArea
  have e1 : P.px_dx * (j : ℚ) + P.x_min = P.x_min + (j : ℚ) * P.px_dx := by ring
  have e2 : P.px_dx * ((j : ℚ) + 1) + P.x_min = P.x_min + ((j : ℚ) + 1) * P.px_dx := by ring
  have e3 : P.px_dy * (i : ℚ) + P.y_min = P.y_min + (i : ℚ) * P.px_dy := by ring
  have e4 : P.px_dy * ((i : ℚ) + 1) + P.y_min = P.y_min + ((i : ℚ) + 1) * P.px_dy := by ring
  rw [e1, e2, e3, e4]
  have := (px_dx_pos P hrows hx).ne.symm
  have := (px_dy_pos P hcols hy).ne.symm
  field_simp
  ring

/-! ## The concrete scenario of the spec -/

/-- The cell list of the scenario. -/
theorem scenario_cells : cells [0] [0] [1] [1] [4] 1 = [⟨0, 0, 1, 1, 4⟩] := by
  simp [cells, readCell, List.range_succ]

theorem scenario_result (aa : Int) :
    Py_Pixelize (scenarioArgs aa 0) =
      ⟨some ⟨2, 2, cellLoop (parseArgs (scenarioArgs aa 0)) [⟨0, 0, 1, 1, 4⟩]⟩, none, true⟩ := by
  rw [Py_Pixelize_of_lengths _ ⟨rfl, rfl, rfl, rfl⟩, ← scenario_cells]
  rfl

theorem scenario_antialias_pixel (j i : Nat) (hj : j < 2) (hi : i < 2) :
    cellLoop (parseArgs (scenarioArgs 1 0)) [⟨0, 0, 1, 1, 4⟩] j i = 4 := by
  rw [cellLoop_antialias _ rfl, List.map_singleton, List.sum_singleton,
    cellWeight_eq_area _ (by decide) (by decide) (by decide) (by decide) rfl (by decide) _ j i
      hj hi]
  interval_cases j <;> interval_cases i <;>
    norm_num [cellPixelArea, interLen, parseArgs, scenarioArgs, Params.px_dx, Params.px_dy,
      Params.width, Params.height]

/-! ## A single cell -/

theorem single_cells (x y hx hy v : ℚ) : cells [x] [y] [hx] [hy] [v] 1 = [⟨x, y, hx, hy, v⟩] := by
  simp [cells, readCell, List.range_succ]

theorem interLen_eq_clamp_sub {a b xl xr : ℚ} (hab : a ≤ b) (hlr : xl ≤ xr) :
    interLen a b xl xr = clampTo xl xr b - clampTo xl xr a := by
  simp only [interLen, clampTo, max_def, min_def]
  split_ifs <;> linarith

/-- The pixels of one axis cut an interval lying inside the bounds into pieces
whose lengths add up to the length of the interval. -/
theorem sum_interLen_axis {h lo hi xl xr : ℚ} {n : ℕ} (hh : 0 < h)
    (hn : h * (n : ℚ) = hi - lo) (h1 : lo ≤ xl) (h2 : xl ≤ xr) (h3 : xr ≤ hi) :
    ∑ j ∈ Finset.range n, interLen (lo + (j : ℚ) * h) (lo + ((j : ℚ) + 1) * h) xl xr
      = xr - xl := by
  have step : ∀ j : ℕ, interLen (lo + (j : ℚ) * h) (lo + ((j : ℚ) + 1) * h) xl xr =
      clampTo xl xr (lo + ((j + 1 : ℕ) : ℚ) * h) - clampTo xl xr (lo + (j : ℚ) * h) := by
    intro j
    rw [interLen_eq_clamp_sub (by nlinarith) h2]
    push_cast
    rfl
  simp only [step]
  rw [Finset.sum_range_sub (fun j : ℕ => clampTo xl xr (lo + (j : ℚ) * h))]
  have e1 : lo + (n : ℚ) * h = hi := by linarith
  simp only [e1, Nat.cast_zero, zero_mul, add_zero, clampTo]
  rw [min_eq_right h3, max_eq_right h2, min_eq_left (le_trans h1 h2), max_eq_left h1]

/-- Antialiased, non-periodic: the sum of all pixels for a single cell lying
inside the bounds. -/
theorem single_cell_sum (P : Params) (hrows : 0 < P.rows) (hcols : 0 < P.cols)
    (hx : P.x_min < P.x_max) (hy : P.y_min < P.y_max) (haa : P.antialias = 1)
    (hcp : P.check_period ≠ 1) (c : Cell)
    (hin : P.x_min ≤ c.oxsp - c.dxsp ∧ c.oxsp + c.dxsp ≤ P.x_max ∧
      P.y_min ≤ c.oysp - c.dysp ∧ c.oysp + c.dysp ≤ P.y_max)
    (hdx : 0 ≤ c.dxsp) (hdy : 0 ≤ c.dysp) :
    gridSum ⟨P.rows, P.cols, cellLoop P [c]⟩ =
      c.dsp * ((2 * c.dxsp) * (2 * c.dysp)) / (P.px_dx * P.px_dy) := by
  obtain ⟨i1, i2, i3, i4⟩ := hin
  have sx := sum_interLen_axis (px_dx_pos P hrows hx)
    (px_dx_mul_rows P hrows) i1 (by linarith : c.oxsp - c.dxsp ≤ c.oxsp + c.dxsp) i2
  have sy := sum_interLen_axis (px_dy_pos P hcols hy)
    (px_dy_mul_cols P hcols) i3 (by linarith : c.oysp - c.dysp ≤ c.oysp + c.dysp) i4
  have pix : ∀ j ∈ Finset.range P.rows, ∀ i ∈ Finset.range P.cols,
      cellLoop P [c] j i = c.dsp * cellPixelArea P c j i / (P.px_dx * P.px_dy) := by
    intro j hj i hi
    rw [cellLoop_antialias _ haa, List.map_singleton, List.sum_singleton,
      cellWeight_eq_area P hrows hcols hx hy haa hcp c j i (Finset.mem_range.mp hj)
        (Finset.mem_range.mp hi)]
  unfold gridSum
  simp only
  rw [Finset.sum_congr rfl (fun j hj => Finset.sum_congr rfl (fun i hi => pix j hj i hi))]
  simp only [cellPixelArea, ← Finset.sum_div, ← Finset.mul_sum, ← Finset.sum_mul, sx, sy]
  ring

/-! ## Without periodic images -/

/-- With `check_period != 1` only the cell's own position is a candidate. -/
theorem cellStep_noperiod (P : Params) (hcp : P.check_period ≠ 1) (g : Pixels) (c : Cell) :
    cellStep P g c =
      if c.oxsp + c.dxsp < P.x_min ∨ c.oxsp - c.dxsp > P.x_max then g
      else if c.oysp + c.dysp < P.y_min ∨ c.oysp - c.dysp > P.y_max then g
      else deposit P c c.oxsp c.oysp g := by
  have e9 : ((999 : Int) = 999) = True := by simp
  have e0 : ((0 : Int) = 999) = False := by simp
  simp only [cellStep, xCandidates, yCandidates, if_neg hcp, List.foldl_cons, List.foldl_nil,
    xiBody, yiBody, e9, e0, if_true, if_false, add_zero]

/-- Overwrite mode without periodic images: a cell stores its value in the
pixels it covers and leaves the others. -/
theorem cellStep_overwrite (P : Params) (haa : P.antialias ≠ 1) (hcp : P.check_period ≠ 1)
    (g : Pixels) (c : Cell) (j i : Nat) :
    cellStep P g c j i = if covers P c j i then c.dsp else g j i := by
  rw [cellStep_noperiod P hcp]
  unfold covers
  by_cases h1 : c.oxsp + c.dxsp < P.x_min ∨ c.oxsp - c.dxsp > P.x_max
  · simp [h1]
  · by_cases h2 : c.oysp + c.dysp < P.y_min ∨ c.oysp - c.dysp > P.y_max
    · simp [h1, h2]
    · have hone : ((1 : ℚ) < 0) = False := by norm_num
      rw [if_neg h1, if_neg h2, deposit_apply]
      simp only [visits, stored, overlap1, overlap2,
        if_neg haa, h1, h2, hone, not_false_eq_true, true_and, and_true]
      by_cases h3 : i ∈ forRange (lr P c c.oysp) (rr P c c.oysp) <;>
      by_cases h4 : j ∈ forRange (lc P c c.oxsp) (rc P c c.oxsp) <;> simp [h3, h4]

theorem foldl_last_writer {ι : Type} (F : Pixels → ι → Pixels) (j i : Nat) (cov : ι → Prop)
    [DecidablePred cov] (val : ι → ℚ)
    (h : ∀ (g : Pixels) (k : ι), F g k j i = if cov k then val k else g j i)
    (L : List ι) (g : Pixels) :
    L.foldl F g j i =
      match L.reverse.find? (fun k => decide (cov k)) with
      | some k => val k
      | none => g j i := by
  induction L generalizing g with
  | nil => simp
  | cons k L ih =>
    rw [List.foldl_cons, ih, List.reverse_cons, List.find?_append]
    cases hf : L.reverse.find? (fun k => decide (cov k)) with
    | some d => simp
    | none =>
      by_cases hk : cov k <;> simp [h, hk]

/-- The covered pixels in terms of the cell's edges and the pixel spans. -/
theorem covers_iff (P : Params) (hrows : 0 < P.rows) (hcols : 0 < P.cols)
    (hx : P.x_min < P.x_max) (hy : P.y_min < P.y_max) (c : Cell) (j i : Nat) :
    covers P c j i ↔
      ¬ (c.oxsp + c.dxsp < P.x_min ∨ c.oxsp - c.dxsp > P.x_max) ∧
      ¬ (c.oysp + c.dysp < P.y_min ∨ c.oysp - c.dysp > P.y_max) ∧
      (c.oxsp - c.dxsp < P.px_dx * ((j : ℚ) + 1) + P.x_min ∧
        P.px_dx * (j : ℚ) + P.x_min < c.oxsp + c.dxsp ∧ j < P.rows) ∧
      (c.oysp - c.dysp < P.px_dy * ((i : ℚ) + 1) + P.y_min ∧
        P.px_dy * (i : ℚ) + P.y_min < c.oysp + c.dysp ∧ i < P.cols) := by
  unfold covers lc rc lr rr
  rw [mem_axis_range (px_dx_pos P hrows hx) (rfl : P.ipx_dx = 1 / P.px_dx),
    mem_axis_range (px_dy_pos P hcols hy) (rfl : P.ipx_dy = 1 / P.px_dy)]

/-- Overwrite mode, one cell, without periodic images. -/
theorem single_cell_overwrite (P : Params) (haa : P.antialias ≠ 1) (hcp : P.check_period ≠ 1)
    (c : Cell) (j i : Nat) :
    cellLoop P [c] j i = if covers P c j i then c.dsp else 0 := by
  unfold cellLoop
  rw [List.foldl_cons, List.foldl_nil, cellStep_overwrite P haa hcp]
  rfl

theorem scenario_overwrite_pixel (j i : Nat) (hj : j < 2) (hi : i < 2) :
    cellLoop (parseArgs (scenarioArgs 0 0)) [⟨0, 0, 1, 1, 4⟩] j i = 4 := by
  rw [single_cell_overwrite _ (by decide) (by decide), if_pos]
  rw [covers_iff _ (by decide) (by decide) (by decide) (by decide)]
  interval_cases j <;> interval_cases i <;>
    norm_num [parseArgs, scenarioArgs, Params.px_dx, Params.px_dy, Params.width, Params.height]

/-! ## Periodic images in antialiased mode -/

theorem candidate_weight (P : Params) (haa : P.antialias = 1) (c : Cell) (xsp ysp : ℚ)
    (j i : Nat) :
    (if xsp + c.dxsp < P.x_min ∨ xsp - c.dxsp > P.x_max then 0
      else if ysp + c.dysp < P.y_min ∨ ysp - c.dysp > P.y_max then 0
      else if visits P c xsp ysp j i then
        (c.dsp * overlap1 P c xsp j) * overlap2 P c ysp i
      else 0) = candWeight P c xsp ysp j i := by
  simp only [candWeight, visits, axisFactor, lc, rc, lr, rr, overlap1, overlap2, if_pos haa]
  by_cases h1 : xsp + c.dxsp < P.x_min ∨ xsp - c.dxsp > P.x_max
  · simp only [h1, if_true, not_true_eq_false, false_and, if_false, mul_zero, zero_mul]
  · by_cases h2 : ysp + c.dysp < P.y_min ∨ ysp - c.dysp > P.y_max
    · simp only [h2, if_true, not_true_eq_false, false_and, if_false, mul_zero, zero_mul,
        ite_self]
    · simp only [h1, h2, if_false, not_false_eq_true, true_and]
      exact ite_and_mul _ _ _ _ _

/-- The weight of a cell in antialiased mode, over all its candidate positions. -/
theorem cellWeight_eq_candidates (P : Params) (haa : P.antialias = 1) (c : Cell) (j i : Nat) :
    cellWeight P j i c =
      ((xCandidates P c).map (fun xc =>
        ((yCandidates P c).map (fun yc =>
          if xc.1 = 999 ∨ yc.1 = 999 then 0
          else candWeight P c (c.oxsp + xc.2) (c.oysp + yc.2) j i)).sum)).sum := by
  unfold cellWeight
  congr 1
  apply List.map_congr_left
  intro xc _
  unfold xWeight
  by_cases h1 : xc.1 = 999
  · simp [h1]
  · simp only [h1, false_or, if_false]
    by_cases h2 : (c.oxsp + xc.2) + c.dxsp < P.x_min ∨ (c.oxsp + xc.2) - c.dxsp > P.x_max
    · rw [if_pos h2]
      symm
      apply List.sum_eq_zero
      intro t ht
      obtain ⟨yc, _, rfl⟩ := List.mem_map.mp ht
      rw [← candidate_weight P haa, if_pos h2, ite_self]
    · rw [if_neg h2]
      congr 1
      apply List.map_congr_left
      intro yc _
      unfold yWeight
      rw [← candidate_weight P haa, if_neg h2]

theorem axisFactor_nonneg (h ih lo hi xl xr : ℚ) (n j : ℕ) :
    0 ≤ axisFactor h ih lo hi xl xr n j := by
  unfold axisFactor
  split_ifs with hc
  · exact not_lt.mp hc.2.2
  · exact le_refl _

theorem axisFactor_pos_of {h ih lo hi xl xr : ℚ} {n : ℕ} (hh : 0 < h) (hih : ih = 1 / h)
    (hn : h * (n : ℚ) = hi - lo) (j : ℕ) (hj : j < n)
    (hpos : max (h * (j : ℚ) + lo) xl < min (h * ((j : ℚ) + 1) + lo) xr) :
    0 < axisFactor h ih lo hi xl xr n j := by
  rw [axisFactor_eq hh hih hn j hj]
  apply div_pos _ hh
  unfold interLen
  rw [lt_max_iff]
  right
  linarith

theorem axisFactor_zero_of {h ih lo hi xl xr : ℚ} {n : ℕ} (hh : 0 < h) (hih : ih = 1 / h)
    (hn : h * (n : ℚ) = hi - lo) (j : ℕ) (hj : j < n)
    (hle : min (h * ((j : ℚ) + 1) + lo) xr ≤ max (h * (j : ℚ) + lo) xl) :
    axisFactor h ih lo hi xl xr n j = 0 := by
  rw [axisFactor_eq hh hih hn j hj]
  unfold interLen
  rw [max_eq_left (by linarith)]
  simp

/-- An interval of positive length inside the bounds meets some pixel of the
axis in positive length. -/
theorem exists_axisFactor_pos {h ih lo hi xl xr : ℚ} {n : ℕ} (hh : 0 < h) (hih : ih = 1 / h)
    (hn : h * (n : ℚ) = hi - lo) (h1 : lo ≤ xl) (h2 : xl < xr) (h3 : xr ≤ hi) :
    ∃ j < n, 0 < axisFactor h ih lo hi xl xr n j := by
  have hq0 : 0 ≤ (xl - lo) / h := div_nonneg (by linarith) hh.le
  have hf0 : (0 : ℤ) ≤ ⌊(xl - lo) / h⌋ := Int.floor_nonneg.mpr hq0
  obtain ⟨j, hjeq⟩ := Int.eq_ofNat_of_zero_le hf0
  have hjle : (j : ℚ) ≤ (xl - lo) / h := by
    have := Int.floor_le ((xl - lo) / h)
    rw [hjeq] at this
    exact_mod_cast this
  have hjlt : (xl - lo) / h < (j : ℚ) + 1 := by
    have := Int.lt_floor_add_one ((xl - lo) / h)
    rw [hjeq] at this
    exact_mod_cast this
  rw [le_div_iff₀ hh] at hjle
  rw [div_lt_iff₀ hh] at hjlt
  have hjn : j < n := by
    have : (j : ℚ) * h < (n : ℚ) * h := by nlinarith
    have := lt_of_mul_lt_mul_right this hh.le
    exact_mod_cast this
  refine ⟨j, hjn, axisFactor_pos_of hh hih hn j hjn ?_⟩
  rw [max_lt_iff, lt_min_iff, lt_min_iff]
  refine ⟨⟨?_, ?_⟩, ⟨?_, ?_⟩⟩ <;> nlinarith

/-- Antialiased mode, `check_period == 1`, a cell that crosses `x_min` and lies
within the y bounds: the cell is deposited at its own position and at the
image shifted by `period_x`. -/
theorem cellWeight_wrap_x (P : Params) (haa : P.antialias = 1) (hcp : P.check_period = 1)
    (c : Cell) (hx : c.oxsp - c.dxsp < P.x_min) (hy1 : P.y_min ≤ c.oysp - c.dysp)
    (hy2 : c.oysp + c.dysp ≤ P.y_max) (j i : Nat) :
    cellWeight P j i c =
      candWeight P c c.oxsp c.oysp j i + candWeight P c (c.oxsp + P.period_x) c.oysp j i := by
  rw [cellWeight_eq_candidates P haa]
  simp [xCandidates, yCandidates, hcp, hx, not_lt.mpr hy1, not_lt.mpr hy2]

theorem single_cell_antialias (P : Params) (haa : P.antialias = 1) (c : Cell) (j i : Nat) :
    cellLoop P [c] j i = cellWeight P j i c := by
  rw [cellLoop_antialias P haa, List.map_singleton, List.sum_singleton]

/-- The facts about the x axis used for a cell that straddles `x_min`: positive
overlap with column 0, no overlap of the cell itself with the last column, and
positive overlap of the image shifted by the width with the last column. -/
theorem straddle_x_factors (P : Params) (hrows : 2 ≤ P.rows) (hxb : P.x_min < P.x_max)
    (c : Cell) (hstr : c.oxsp - c.dxsp < P.x_min ∧ P.x_min < c.oxsp + c.dxsp)
    (hfar : c.oxsp + c.dxsp ≤ P.x_max - P.px_dx) (hper : P.period_x = P.x_max - P.x_min) :
    0 < axisFactor P.px_dx P.ipx_dx P.x_min P.x_max (c.oxsp - c.dxsp) (c.oxsp + c.dxsp)
        P.rows 0 ∧
    axisFactor P.px_dx P.ipx_dx P.x_min P.x_max (c.oxsp - c.dxsp) (c.oxsp + c.dxsp)
        P.rows (P.rows - 1) = 0 ∧
    0 < axisFactor P.px_dx P.ipx_dx P.x_min P.x_max (c.oxsp + P.period_x - c.dxsp)
        (c.oxsp + P.period_x + c.dxsp) P.rows (P.rows - 1) := by
  have hr0 : 0 < P.rows := by omega
  have hpx := px_dx_pos P hr0 hxb
  have hwx := px_dx_mul_rows P hr0
  obtain ⟨m, hm⟩ := Nat.exists_eq_succ_of_ne_zero hr0.ne.symm
  have hm1 : P.rows - 1 = m := by omega
  have hmlt : m < P.rows := by omega
  have hcast : (P.rows : ℚ) = (m : ℚ) + 1 := by rw [hm]; push_cast; ring
  rw [hcast] at hwx
  rw [hm1]
  refine ⟨?_, ?_, ?_⟩
  · apply axisFactor_pos_of hpx rfl (px_dx_mul_rows P hr0) 0 hr0
    simp only [Nat.cast_zero, mul_zero, zero_add, mul_one]
    rw [max_lt_iff, lt_min_iff, lt_min_iff]
    exact ⟨⟨by linarith, hstr.2⟩, ⟨by linarith, by linarith⟩⟩
  · apply axisFactor_zero_of hpx rfl (px_dx_mul_rows P hr0) m hmlt
    have h1 := min_le_right (P.px_dx * ((m : ℚ) + 1) + P.x_min) (c.oxsp + c.dxsp)
    have h2 := le_max_left (P.px_dx * (m : ℚ) + P.x_min) (c.oxsp - c.dxsp)
    linarith
  · apply axisFactor_pos_of hpx rfl (px_dx_mul_rows P hr0) m hmlt
    rw [max_lt_iff, lt_min_iff, lt_min_iff]
    refine ⟨⟨?_, ?_⟩, ⟨?_, ?_⟩⟩ <;> linarith

/-- Periodic wrap, `check_period == 1`: a cell straddling `x_min` reaches both
the first and the last pixel column. -/
theorem wrap_on (P : Params) (hrows : 2 ≤ P.rows) (hcols : 0 < P.cols)
    (hxb : P.x_min < P.x_max) (hyb : P.y_min < P.y_max) (haa : P.antialias = 1)
    (hcp : P.check_period = 1) (c : Cell) (hv : 0 < c.dsp) (hhy : 0 < c.dysp)
    (hstr : c.oxsp - c.dxsp < P.x_min ∧ P.x_min < c.oxsp + c.dxsp)
    (hfar : c.oxsp + c.dxsp ≤ P.x_max - P.px_dx)
    (hyin : P.y_min ≤ c.oysp - c.dysp ∧ c.oysp + c.dysp ≤ P.y_max)
    (hper : P.period_x = P.x_max - P.x_min) :
    (∃ i < P.cols, cellLoop P [c] 0 i ≠ 0) ∧ (∃ i < P.cols, cellLoop P [c] (P.rows - 1) i ≠ 0) := by
  obtain ⟨f0, _, fm⟩ := straddle_x_factors P hrows hxb c hstr hfar hper
  obtain ⟨i0, hi0, hAy⟩ := exists_axisFactor_pos (px_dy_pos P hcols hyb)
    (rfl : P.ipx_dy = 1 / P.px_dy) (px_dy_mul_cols P hcols) hyin.1
    (by linarith : c.oysp - c.dysp < c.oysp + c.dysp) hyin.2
  have key : ∀ j, cellLoop P [c] j i0 =
      candWeight P c c.oxsp c.oysp j i0 + candWeight P c (c.oxsp + P.period_x) c.oysp j i0 :=
    fun j => by
      rw [single_cell_antialias P haa, cellWeight_wrap_x P haa hcp c hstr.1 hyin.1 hyin.2]
  refine ⟨⟨i0, hi0, ?_⟩, ⟨i0, hi0, ?_⟩⟩
  · rw [key]
    apply ne_of_gt
    unfold candWeight
    have n1 := axisFactor_nonneg P.px_dx P.ipx_dx P.x_min P.x_max (c.oxsp + P.period_x - c.dxsp)
      (c.oxsp + P.period_x + c.dxsp) P.rows 0
    have t1 := mul_pos (mul_pos hv f0) hAy
    have t2 := mul_nonneg (mul_nonneg hv.le n1) hAy.le
    linarith
  · rw [key]
    apply ne_of_gt
    unfold candWeight
    have n1 := axisFactor_nonneg P.px_dx P.ipx_dx P.x_min P.x_max (c.oxsp - c.dxsp)
      (c.oxsp + c.dxsp) P.rows (P.rows - 1)
    have t1 := mul_pos (mul_pos hv fm) hAy
    have t2 := mul_nonneg (mul_nonneg hv.le n1) hAy.le
    linarith

/-- No periodic wrap, `check_period != 1`: a cell straddling `x_min` reaches
the first pixel column and leaves the last one untouched. -/
theorem wrap_off (P : Params) (hrows : 2 ≤ P.rows) (hcols : 0 < P.cols)
    (hxb : P.x_min < P.x_max) (hyb : P.y_min < P.y_max) (haa : P.antialias = 1)
    (hcp : P.check_period ≠ 1) (c : Cell) (hv : 0 < c.dsp) (hhy : 0 < c.dysp)
    (hstr : c.oxsp - c.dxsp < P.x_min ∧ P.x_min < c.oxsp + c.dxsp)
    (hfar : c.oxsp + c.dxsp ≤ P.x_max - P.px_dx)
    (hyin : P.y_min ≤ c.oysp - c.dysp ∧ c.oysp + c.dysp ≤ P.y_max)
    (hper : P.period_x = P.x_max - P.x_min) :
    (∃ i < P.cols, cellLoop P [c] 0 i ≠ 0) ∧ (∀ i < P.cols, cellLoop P [c] (P.rows - 1) i = 0) := by
  obtain ⟨f0, fz, _⟩ := straddle_x_factors P hrows hxb c hstr hfar hper
  obtain ⟨i0, hi0, hAy⟩ := exists_axisFactor_pos (px_dy_pos P hcols hyb)
    (rfl : P.ipx_dy = 1 / P.px_dy) (px_dy_mul_cols P hcols) hyin.1
    (by linarith : c.oysp - c.dysp < c.oysp + c.dysp) hyin.2
  refine ⟨⟨i0, hi0, ?_⟩, ?_⟩
  · rw [single_cell_antialias P haa, cellWeight_noperiod P haa hcp]
    exact ne_of_gt (mul_pos (mul_pos hv f0) hAy)
  · intro i _
    rw [single_cell_antialias P haa, cellWeight_noperiod P haa hcp, fz]
    ring

/-! ## The loops of `Py_CPixelize`, pixel by pixel -/

theorem foldl_obs_untouched {σ ι α : Type} (F : σ → ι → σ) (obs : σ → α) (L : List ι) (s : σ)
    (h : ∀ k ∈ L, ∀ s : σ, obs (F s k) = obs s) : obs (L.foldl F s) = obs s := by
  induction L generalizing s with
  | nil => rfl
  | cons k L ih =>
    rw [List.foldl_cons, ih _ (fun k1 hk1 => h k1 (List.mem_cons_of_mem _ hk1))]
    exact h k (List.mem_cons_self _ _) s

theorem foldl_obs_once {σ ι α : Type} [DecidableEq ι] (F : σ → ι → σ) (obs : σ → α) (k0 : ι)
    (u : α → α) (L : List ι) (hL : L.Nodup) (s : σ)
    (h1 : ∀ k ∈ L, k ≠ k0 → ∀ s : σ, obs (F s k) = obs s)
    (h2 : ∀ s : σ, obs (F s k0) = u (obs s)) :
    obs (L.foldl F s) = if k0 ∈ L then u (obs s) else obs s := by
  induction L generalizing s with
  | nil => simp
  | cons k L ih =>
    rw [List.nodup_cons] at hL
    rw [List.foldl_cons]
    by_cases hk : k = k0
    · subst hk
      rw [foldl_obs_untouched F obs L _
        (fun k1 hk1 s1 => h1 k1 (List.mem_cons_of_mem _ hk1) (fun e => hL.1 (e ▸ hk1)) s1)]
      simp [h2]
    · rw [ih hL.2 _ (fun k1 hk1 => h1 k1 (List.mem_cons_of_mem _ hk1)),
        h1 k (List.mem_cons_self _ _) hk]
      simp [List.mem_cons, Ne.symm hk]

namespace CPixelize

theorem intRange_nodup (lo hi : Int) : (intRange lo hi).Nodup := by
  unfold intRange
  exact List.nodup_range' _ _

theorem mem_intRange {lo hi : Int} (hlo : 0 ≤ lo) (n : Nat) :
    n ∈ intRange lo hi ↔ lo ≤ (n : Int) ∧ (n : Int) < hi := by
  unfold intRange
  rw [List.mem_range'_1]
  omega

theorem lc_nonneg (sqrtl : ℚ → ℚ) (a : CPixelizeArgs) (c : Cell3) : 0 ≤ lc sqrtl a c :=
  le_max_right _ _

theorem lr_nonneg (sqrtl : ℚ → ℚ) (a : CPixelizeArgs) (c : Cell3) : 0 ≤ lr sqrtl a c :=
  le_max_right _ _

/-- The `j` loop stays below `rows`. -/
theorem lt_rows_of_mem (sqrtl : ℚ → ℚ) (a : CPixelizeArgs) (c : Cell3) (j : Nat)
    (h : j ∈ intRange (lc sqrtl a c) (rc sqrtl a c)) : j < a.rows := by
  have h1 := ((mem_intRange (lc_nonneg sqrtl a c) j).mp h).2
  have h2 : rc sqrtl a c ≤ (a.rows : Int) := min_le_right _ _
  omega

/-- The `i` loop stays below `cols`. -/
theorem lt_cols_of_mem (sqrtl : ℚ → ℚ) (a : CPixelizeArgs) (c : Cell3) (i : Nat)
    (h : i ∈ intRange (lr sqrtl a c) (rr sqrtl a c)) : i < a.cols := by
  have h1 := ((mem_intRange (lr_nonneg sqrtl a c) i).mp h).2
  have h2 : rr sqrtl a c ≤ (a.cols : Int) := min_le_right _ _
  omega

/-- Two pixels with column indices below `cols` and one flat index coincide. -/
theorem flat_index_inj {n j i j1 i1 : Nat} (hi : i < n) (hi1 : i1 < n)
    (h : j * n + i = j1 * n + i1) : j = j1 ∧ i = i1 := by
  have e1 : (j * n + i) / n = j := by
    rw [Nat.add_comm, Nat.add_mul_div_right _ _ (by omega), Nat.div_eq_of_lt hi, Nat.zero_add]
  have e2 : (j1 * n + i1) / n = j1 := by
    rw [Nat.add_comm, Nat.add_mul_div_right _ _ (by omega), Nat.div_eq_of_lt hi1, Nat.zero_add]
  have hj : j = j1 := by rw [← e1, ← e2, h]
  subst hj
  exact ⟨rfl, by omega⟩

theorem jBody_entry_self (a : CPixelizeArgs) (c : Cell3) (i j : Nat) (b : Buffers) :
    entry (j * a.cols + i) (jBody a c i b j) =
      if inside a c j i then bump c (entry (j * a.cols + i) b) else entry (j * a.cols + i) b := by
  unfold jBody entry bump
  split_ifs <;> simp

theorem jBody_entry_other (a : CPixelizeArgs) (c : Cell3) (i j : Nat) (b : Buffers) (q : Nat)
    (hq : q ≠ j * a.cols + i) : entry q (jBody a c i b j) = entry q b := by
  unfold jBody entry
  split_ifs <;> simp [hq]

theorem jLoop_entry (a : CPixelizeArgs) (c : Cell3) (i1 : Nat) (hi1 : i1 < a.cols)
    (L : List Nat) (hL : L.Nodup) (b : Buffers) (j i : Nat) (hi : i < a.cols) :
    entry (j * a.cols + i) (L.foldl (jBody a c i1) b) =
      if i1 = i ∧ j ∈ L ∧ inside a c j i then bump c (entry (j * a.cols + i) b)
      else entry (j * a.cols + i) b := by
  by_cases hii : i1 = i
  · subst hii
    rw [foldl_obs_once (jBody a c i1) (entry (j * a.cols + i1)) j
      (fun e => if inside a c j i1 then bump c e else e) L hL b]
    · by_cases hm : j ∈ L <;> by_cases hin : inside a c j i1 <;> simp [hm, hin]
    · intro k _ hk b1
      apply jBody_entry_other
      intro e
      exact hk (flat_index_inj hi hi e).1.symm
    · intro b1
      exact jBody_entry_self a c i1 j b1
  · rw [foldl_obs_untouched (jBody a c i1) (entry (j * a.cols + i)) L b]
    · simp [hii]
    · intro k _ b1
      apply jBody_entry_other
      intro e
      exact hii (flat_index_inj hi hi1 e).2.symm

theorem cellStep_entry (sqrtl : ℚ → ℚ) (a : CPixelizeArgs) (b : Buffers) (p : Int)
    (j i : Nat) (hi : i < a.cols) :
    entry (j * a.cols + i) (cellStep sqrtl a b p) =
      if hits sqrtl a (readCell3 a p) j i then
        bump (readCell3 a p) (entry (j * a.cols + i) b)
      else entry (j * a.cols + i) b := by
  unfold cellStep hits inCandidateRange
  simp only
  set c := readCell3 a p with hc
  by_cases hskip : (c.pxsp + md sqrtl c < a.px_min ∨ c.pxsp - md sqrtl c > a.px_max) ∨
      (c.pysp + md sqrtl c < a.py_min ∨ c.pysp - md sqrtl c > a.py_max)
  · simp [hskip]
  · rw [if_neg hskip]
    rw [foldl_obs_once (iBody sqrtl a c) (entry (j * a.cols + i)) i
      (fun e => if j ∈ intRange (lc sqrtl a c) (rc sqrtl a c) ∧ inside a c j i then bump c e
        else e) _ (intRange_nodup _ _) b]
    · by_cases h1 : i ∈ intRange (lr sqrtl a c) (rr sqrtl a c) <;>
      by_cases h2 : j ∈ intRange (lc sqrtl a c) (rc sqrtl a c) <;>
      by_cases h3 : inside a c j i <;> simp [hskip, h1, h2, h3]
    · intro k hk hne b1
      unfold iBody
      rw [jLoop_entry a c k (lt_cols_of_mem sqrtl a c k hk) _ (intRange_nodup _ _) b1 j i hi]
      simp [hne]
    · intro b1
      unfold iBody
      rw [jLoop_entry a c i hi _ (intRange_nodup _ _) b1 j i hi]
      simp

theorem foldl_entry_sum (sqrtl : ℚ → ℚ) (a : CPixelizeArgs) (j i : Nat) (hi : i < a.cols)
    (L : List Int) (b : Buffers) :
    entry (j * a.cols + i) (L.foldl (cellStep sqrtl a) b) =
      ((entry (j * a.cols + i) b).1 +
          ((L.filter (fun p => decide (hits sqrtl a (readCell3 a p) j i))).map
            (fun p => (readCell3 a p).dsp)).sum,
        (entry (j * a.cols + i) b).2 +
          ((L.filter (fun p => decide (hits sqrtl a (readCell3 a p) j i))).length : ℚ)) := by
  induction L generalizing b with
  | nil => simp
  | cons p L ih =>
    rw [List.foldl_cons, ih, cellStep_entry sqrtl a b p j i hi]
    by_cases h : hits sqrtl a (readCell3 a p) j i
    · simp [h, bump, List.filter_cons]
      constructor <;> ring
    · simp [h, List.filter_cons]

end CPixelize

namespace CPixelize

/-- The containment test of the code is the one of the spec. -/
theorem inside_iff_containsWorld (a : CPixelizeArgs) (c : Cell3) (j i : Nat) :
    inside a c j i ↔ containsWorld a c j i := by
  have e : ∀ r : Nat,
      a.inv_mats r 0 * (a.px_dx * ((j : ℚ) + 1 / 2) + a.px_min) +
        a.inv_mats r 1 * (a.px_dy * ((i : ℚ) + 1 / 2) + a.py_min) + a.centers r =
      world a j i r := by
    intro r
    unfold world
    ring
  unfold inside containsWorld
  simp only [e, not_or, not_lt, gt_iff_lt]

theorem bump_ne (c : Cell3) (e : ℚ × ℚ) : bump c e ≠ e := by
  intro h
  have h2 := congrArg Prod.snd h
  simp [bump] at h2

end CPixelize

/-- The single cell of `oneCellCArgs` has the single pixel `(0, 0)` in its
candidate range. -/
theorem oneCell_inCandidateRange :
    CPixelize.inCandidateRange (fun t => t) oneCellCArgs (readCell3 oneCellCArgs 0) 0 0 := by
  have hmd : CPixelize.md (fun t => t) (readCell3 oneCellCArgs 0) = 6 := by
    norm_num [CPixelize.md, readCell3, readAt, oneCellCArgs]
  have hlr : CPixelize.lr (fun t => t) oneCellCArgs (readCell3 oneCellCArgs 0) = 0 := by
    rw [CPixelize.lr, hmd]
    norm_num [readCell3, readAt, oneCellCArgs, CPixelizeArgs.px_dy, CPixelizeArgs.py_min,
      CPixelizeArgs.py_max, CPixelizeArgs.cols]
  have hlc : CPixelize.lc (fun t => t) oneCellCArgs (readCell3 oneCellCArgs 0) = 0 := by
    rw [CPixelize.lc, hmd]
    norm_num [readCell3, readAt, oneCellCArgs, CPixelizeArgs.px_dx, CPixelizeArgs.px_min,
      CPixelizeArgs.px_max, CPixelizeArgs.rows]
  have hrr : CPixelize.rr (fun t => t) oneCellCArgs (readCell3 oneCellCArgs 0) = 1 := by
    rw [CPixelize.rr, hmd]
    norm_num [readCell3, readAt, oneCellCArgs, CPixelizeArgs.px_dy, CPixelizeArgs.py_min,
      CPixelizeArgs.py_max, CPixelizeArgs.cols]
  have hrc : CPixelize.rc (fun t => t) oneCellCArgs (readCell3 oneCellCArgs 0) = 1 := by
    rw [CPixelize.rc, hmd]
    norm_num [readCell3, readAt, oneCellCArgs, CPixelizeArgs.px_dx, CPixelizeArgs.px_min,
      CPixelizeArgs.px_max, CPixelizeArgs.rows]
  unfold CPixelize.inCandidateRange
  rw [hmd, hlr, hlc, hrr, hrc]
  refine ⟨?_, by decide, by decide⟩
  norm_num [readCell3, readAt, oneCellCArgs, CPixelizeArgs.px_min, CPixelizeArgs.px_max,
    CPixelizeArgs.py_min, CPixelizeArgs.py_max]

/-! ## The selection of `Py_CPixelize` -/

namespace CPixelize

/-- The loop body for the index `p` depends on the per-cell arrays only through
the nine values read at `p`. -/
theorem cellStep_withCells (sqrtl : ℚ → ℚ) (a : CPixelizeArgs)
    (xp yp zp pxp pyp dxp dyp dzp dp : List ℚ) (b : Buffers) (p : Int)
    (h : readCell3 (withCells a xp yp zp pxp pyp dxp dyp dzp dp) p = readCell3 a p) :
    cellStep sqrtl (withCells a xp yp zp pxp pyp dxp dyp dzp dp) b p = cellStep sqrtl a b p := by
  unfold cellStep
  simp only [h]
  rfl

theorem foldl_cellStep_withCells (sqrtl : ℚ → ℚ) (a : CPixelizeArgs)
    (xp yp zp pxp pyp dxp dyp dzp dp : List ℚ) (L : List Int)
    (h : ∀ p ∈ L, readCell3 (withCells a xp yp zp pxp pyp dxp dyp dzp dp) p = readCell3 a p)
    (b : Buffers) :
    L.foldl (cellStep sqrtl (withCells a xp yp zp pxp pyp dxp dyp dzp dp)) b =
      L.foldl (cellStep sqrtl a) b := by
  induction L generalizing b with
  | nil => rfl
  | cons p L ih =>
    rw [List.foldl_cons, List.foldl_cons,
      cellStep_withCells sqrtl a xp yp zp pxp pyp dxp dyp dzp dp b p
        (h p (List.mem_cons_self _ _)),
      ih (fun q hq => h q (List.mem_cons_of_mem _ hq))]

end CPixelize

/-! ## Rearranged cells -/

/-- The cells of the rearranged call are the cells of the call, rearranged. -/
theorem cells_permuteArgs (a : PixelizeArgs) (σ : List Nat) :
    cells (permuteArgs a σ).xp (permuteArgs a σ).yp (permuteArgs a σ).dxp (permuteArgs a σ).dyp
        (permuteArgs a σ).dp (permuteArgs a σ).xp.length =
      σ.map (readCell a.xp a.yp a.dxp a.dyp a.dp) := by
  unfold cells permuteArgs
  apply List.ext_getElem
  · simp
  · intro n h1 h2
    have hn : n < σ.length := by simpa using h2
    simp [readCell, List.getD_eq_getElem?_getD, List.getElem?_eq_getElem hn]

theorem cellLoop_antialias_perm (P : Params) (haa : P.antialias = 1) (cs cs1 : List Cell)
    (h : cs1.Perm cs) (j i : Nat) : cellLoop P cs1 j i = cellLoop P cs j i := by
  rw [cellLoop_antialias P haa, cellLoop_antialias P haa]
  exact (h.map _).sum_eq

/-! ## A zero period -/

/-- Antialiased mode, `check_period == 1` and `period_x == 0`: a cell that
crosses an x edge and lies within the y bounds is deposited twice at its own
position. -/
theorem cellWeight_zero_period_x (P : Params) (haa : P.antialias = 1)
    (hcp : P.check_period = 1) (hper : P.period_x = 0) (c : Cell)
    (hcross : c.oxsp - c.dxsp < P.x_min ∨ c.oxsp + c.dxsp > P.x_max)
    (hy1 : P.y_min ≤ c.oysp - c.dysp) (hy2 : c.oysp + c.dysp ≤ P.y_max) (j i : Nat) :
    cellWeight P j i c = 2 * candWeight P c c.oxsp c.oysp j i := by
  rw [cellWeight_eq_candidates P haa]
  by_cases h1 : c.oxsp - c.dxsp < P.x_min
  · simp [xCandidates, yCandidates, hcp, hper, h1, not_lt.mpr hy1, not_lt.mpr hy2]
    ring
  · have h2 : c.oxsp + c.dxsp > P.x_max := hcross.resolve_left h1
    simp [xCandidates, yCandidates, hcp, hper, h1, h2, not_lt.mpr hy1, not_lt.mpr hy2]
    ring

theorem candWeight_congr (P Q : Params) (h : Q.rows = P.rows ∧ Q.cols = P.cols ∧
    Q.x_min = P.x_min ∧ Q.x_max = P.x_max ∧ Q.y_min = P.y_min ∧ Q.y_max = P.y_max)
    (c : Cell) (xsp ysp : ℚ) (j i : Nat) :
    candWeight Q c xsp ysp j i = candWeight P c xsp ysp j i := by
  obtain ⟨h1, h2, h3, h4, h5, h6⟩ := h
  unfold candWeight Params.px_dx Params.px_dy Params.ipx_dx Params.ipx_dy Params.px_dx
    Params.px_dy Params.width Params.height
  rw [h1, h2, h3, h4, h5, h6]

theorem singleCellArgs_result (x y hx hy v : ℚ) (n6 n7 : Nat) (b0 b1 b2 b3 : ℚ) (opt : OptArgs)
    (hrows : 0 < n7) (hcols : 0 < n6) :
    Py_Pixelize (singleCellArgs x y hx hy v n6 n7 b0 b1 b2 b3 opt) =
      ⟨some ⟨n7, n6, cellLoop (parseArgs (singleCellArgs x y hx hy v n6 n7 b0 b1 b2 b3 opt))
        [⟨x, y, hx, hy, v⟩]⟩, none, true⟩ := by
  have hr : (parseArgs (singleCellArgs x y hx hy v n6 n7 b0 b1 b2 b3 opt)).rows = n7 := by
    cases opt <;> rfl
  have hc : (parseArgs (singleCellArgs x y hx hy v n6 n7 b0 b1 b2 b3 opt)).cols = n6 := by
    cases opt <;> rfl
  rw [Py_Pixelize_of_lengths _ ⟨rfl, rfl, rfl, rfl⟩, hr, hc, if_neg (by omega)]
  simp [singleCellArgs, single_cells]

/-- A zero period with `check_period == 1` doubles the grid of
`check_period == 0` for a single cell crossing an x edge only. -/
theorem zero_period_doubles (x y hx hy v : ℚ) (n6 n7 : Nat) (b0 b1 b2 b3 : ℚ)
    (hcross : x - hx < b0 ∨ x + hx > b1) (hy1 : b2 ≤ y - hy) (hy2 : y + hy ≤ b3) (j i : Nat) :
    cellLoop (parseArgs (singleCellArgs x y hx hy v n6 n7 b0 b1 b2 b3 (.all 1 0 0 1)))
        [⟨x, y, hx, hy, v⟩] j i =
      2 * cellLoop (parseArgs (singleCellArgs x y hx hy v n6 n7 b0 b1 b2 b3 (.all 1 0 0 0)))
        [⟨x, y, hx, hy, v⟩] j i := by
  rw [single_cell_antialias _ rfl, single_cell_antialias _ rfl,
    cellWeight_zero_period_x _ rfl rfl rfl ⟨x, y, hx, hy, v⟩ hcross hy1 hy2,
    cellWeight_noperiod _ rfl (by show (0 : Int) ≠ 1; decide)]
  rw [candWeight_congr (parseArgs (singleCellArgs x y hx hy v n6 n7 b0 b1 b2 b3 (.all 1 0 0 0)))
    (parseArgs (singleCellArgs x y hx hy v n6 n7 b0 b1 b2 b3 (.all 1 0 0 1)))
    ⟨rfl, rfl, rfl, rfl, rfl, rfl⟩]
  rfl

/-- The pixel `[0][0]` of the call `crossArgs` with `check_period = 0`. -/
theorem crossArgs_off_pixel :
    cellLoop (parseArgs (crossArgs (.all 1 0 0 0))) [⟨1 / 2, 1 / 2, 1, 1 / 2, 1⟩] 0 0 = 1 := by
  rw [single_cell_antialias _ rfl,
    cellWeight_eq_area _ (by decide) (by decide) (by decide) (by decide) rfl (by decide) _ 0 0
      (by decide) (by decide)]
  norm_num [cellPixelArea, interLen, parseArgs, crossArgs, singleCellArgs, Params.px_dx,
    Params.px_dy, Params.width, Params.height]

theorem parseArgs_permuteArgs (a : PixelizeArgs) (σ : List Nat) :
    parseArgs (permuteArgs a σ) = parseArgs a := by
  unfold parseArgs permuteArgs
  simp only

/-! ## The cell loop in terms of the input sequences -/

theorem sum_map_range (f : Nat → ℚ) (n : Nat) :
    ((List.range n).map f).sum = ∑ p ∈ Finset.range n, f p := by
  induction n with
  | zero => simp
  | succ n ih =>
    rw [List.range_succ, List.map_append, List.sum_append, ih, Finset.sum_range_succ]
    simp

/-- Antialiased mode without periodic images on a valid grid: every pixel is
the area-weighted sum over the input sequences. -/
theorem cellLoop_areaWeightedSum (a : PixelizeArgs) (P : Params)
    (hrows : 0 < P.rows) (hcols : 0 < P.cols)
    (hx : P.x_min < P.x_max) (hy : P.y_min < P.y_max)
    (haa : P.antialias = 1) (hcp : P.check_period ≠ 1) (j i : Nat) (hj : j < P.rows)
    (hi : i < P.cols) :
    cellLoop P (cells a.xp a.yp a.dxp a.dyp a.dp a.xp.length) j i =
      areaWeightedSum a.xp a.yp a.dxp a.dyp a.dp P.rows P.cols P.x_min P.x_max P.y_min P.y_max
        j i := by
  rw [cellLoop_antialias _ haa]
  unfold cells areaWeightedSum
  rw [List.map_map, sum_map_range]
  apply Finset.sum_congr rfl
  intro p _
  simp only [Function.comp]
  rw [cellWeight_eq_area _ hrows hcols hx hy haa hcp _ j i hj hi]
  rfl

/-- The pixels a cell covers in the code, written on the input sequences. -/
theorem covers_readCell_iff (a : PixelizeArgs) (P : Params) (p j i : Nat) :
    covers P (readCell a.xp a.yp a.dxp a.dyp a.dp p) j i ↔
      inCellRange a.xp a.yp a.dxp a.dyp P.rows P.cols P.x_min P.x_max P.y_min P.y_max p j i := by
  have hlc : ∀ t : ℚ, (0 : ℚ) ≤ c_max t 0 := fun t => by
    rw [c_max_eq]; exact le_max_right _ _
  unfold covers inCellRange lc rc lr rr
  rw [mem_forRange (hlc _), mem_forRange (hlc _), c_max_eq, c_max_eq, c_min_eq, c_min_eq]
  rfl

/-- The last-writer fold of a list of cells read from a list of indices. -/
theorem find_map_reverse {α β : Type} (f : α → β) (q : β → Bool) (L : List α) :
    (L.map f).reverse.find? q = (L.reverse.find? (fun x => q (f x))).map f := by
  rw [← List.map_reverse, List.find?_map]
  rfl

/-- Overwrite mode without periodic images: every pixel holds the value stored
at the last index of the input sequences whose range contains it. -/
theorem cellLoop_last_in_range (a : PixelizeArgs) (P : Params)
    (haa : P.antialias ≠ 1) (hcp : P.check_period ≠ 1) (j i : Nat) :
    cellLoop P (cells a.xp a.yp a.dxp a.dyp a.dp a.xp.length) j i =
      match (List.range a.xp.length).reverse.find? (fun p => decide
          (inCellRange a.xp a.yp a.dxp a.dyp P.rows P.cols P.x_min P.x_max P.y_min P.y_max
            p j i)) with
      | some p => a.dp.getD p 0
      | none => 0 := by
  unfold cellLoop
  rw [foldl_last_writer (cellStep P) j i (fun c => covers P c j i) (fun c => c.dsp) _ _ _]
  · unfold cells
    rw [find_map_reverse]
    simp only [covers_readCell_iff]
    generalize List.find? _ _ = o
    cases o <;> rfl
  · intro g c
    exact cellStep_overwrite P haa hcp g c j i

/-! ## The overwrite loop with the counter values given -/

theorem overwrite_cell_apply (J I : List Nat) (v : ℚ) (g : Pixels) (j i : Nat) :
    I.foldl (fun g i1 => J.foldl (fun g j1 => g.set j1 i1 v) g) g j i =
      if j ∈ J ∧ i ∈ I then v else g j i := by
  have hJ : ∀ (i1 : Nat) (g : Pixels),
      J.foldl (fun g j1 => g.set j1 i1 v) g j i = if j ∈ J ∧ i = i1 then v else g j i := by
    intro i1
    induction J with
    | nil => intro g; simp
    | cons k J ih =>
      intro g
      rw [List.foldl_cons, ih]
      unfold Pixels.set
      by_cases h1 : j ∈ J <;> by_cases h2 : i = i1 <;> by_cases h3 : j = k <;>
        simp [h1, h2, h3]
  induction I generalizing g with
  | nil => simp
  | cons k I ih =>
    rw [List.foldl_cons, ih, hJ]
    by_cases h1 : j ∈ J <;> by_cases h2 : i ∈ I <;> by_cases h3 : i = k <;> simp [h1, h2, h3]

/-- Whatever the counter values of the cells, every pixel holds the value of
the last cell whose counter values include it, and 0 when there is none. -/
theorem overwriteLoop_apply {ι : Type} (ranges : ι → List Nat × List Nat) (val : ι → ℚ)
    (cs : List ι) (j i : Nat) :
    overwriteLoop ranges val cs j i =
      match cs.reverse.find? (fun c => decide (j ∈ (ranges c).1 ∧ i ∈ (ranges c).2)) with
      | some c => val c
      | none => 0 := by
  unfold overwriteLoop
  rw [foldl_last_writer _ j i (fun c => j ∈ (ranges c).1 ∧ i ∈ (ranges c).2) val _ _ _]
  · rfl
  · intro g c
    exact overwrite_cell_apply _ _ _ g j i

theorem covers_iff_loopRanges (P : Params) (c : Cell) (j i : Nat) :
    covers P c j i ↔ j ∈ (loopRanges P c).1 ∧ i ∈ (loopRanges P c).2 := by
  unfold covers loopRanges
  by_cases h1 : c.oxsp + c.dxsp < P.x_min ∨ c.oxsp - c.dxsp > P.x_max
  · simp [h1]
  · by_cases h2 : c.oysp + c.dysp < P.y_min ∨ c.oysp - c.dysp > P.y_max
    · simp [h2]
    · simp [h1, h2]

/-- In exact arithmetic the cell loop of overwrite mode without periodic
images is the overwrite loop with the counter values `loopRanges`. -/
theorem cellLoop_eq_overwriteLoop (P : Params) (haa : P.antialias ≠ 1)
    (hcp : P.check_period ≠ 1) (cs : List Cell) :
    cellLoop P cs = overwriteLoop (loopRanges P) (fun c => c.dsp) cs := by
  funext j i
  rw [overwriteLoop_apply]
  unfold cellLoop
  rw [foldl_last_writer (cellStep P) j i (fun c => covers P c j i) (fun c => c.dsp) _ _ _]
  · simp only [covers_iff_loopRanges]
    generalize List.find? _ _ = o
    cases o <;> rfl
  · intro g c
    exact cellStep_overwrite P haa hcp g c j i

/-! ## The loops of `Py_CPixelize` in terms of the input sequences -/

/-- The result of `Py_CPixelize` when all the array tests pass: the call
reaches the store through `dims`. -/
theorem Py_CPixelize_of_lengths (a : CPixelizeArgs)
    (hlen : a.yp.length = a.xp.length ∧ a.dp.length = a.xp.length ∧
      a.dxp.length = a.xp.length ∧ a.dyp.length = a.xp.length ∧ a.dzp.length = a.xp.length)
    (hc : a.centerp.length = 3) (hm : a.inv_mat_size = 9)
    (hidx : a.indicesp.length = a.dxp.length) :
    Py_CPixelize a =
      .undefinedStore
        (if a.rows = 0 ∨ a.cols = 0 then some "Cannot scale to zero size." else none) := by
  obtain ⟨h1, h2, h3, h4, h5⟩ := hlen
  simp [Py_CPixelize, h1, h2, h3, h4, h5, hc, hm, hidx]

/-- A 3 x 3 matrix has nine elements. -/
theorem inv_mat_size_of_shape (a : CPixelizeArgs)
    (h : a.inv_matp.length = 3 ∧ ∀ r ∈ a.inv_matp, r.length = 3) : a.inv_mat_size = 9 := by
  obtain ⟨h3, hr⟩ := h
  unfold CPixelizeArgs.inv_mat_size
  match hm : a.inv_matp, h3 with
  | [r0, r1, r2], _ =>
    rw [hm] at hr
    simp [hr r0 (by simp), hr r1 (by simp), hr r2 (by simp)]

theorem foldlM_none_of_mem {σ ι : Type} (f : σ → ι → Option σ) (L : List ι) (k : ι)
    (hk : k ∈ L) (hbad : ∀ s, f s k = none) (s : σ) : L.foldlM f s = none := by
  induction L generalizing s with
  | nil => cases hk
  | cons x L ih =>
    rw [List.foldlM_cons]
    rcases List.mem_cons.mp hk with e | hmem
    · subst e
      rw [hbad]
      rfl
    · cases hx : f s x with
      | none => rfl
      | some s1 => exact ih hmem s1

namespace CPixelize

theorem readAt_of_nonneg (arr : List ℚ) (p : Int) (h : 0 ≤ p) :
    readAt arr p = arr.getD p.toNat 0 := if_pos h

/-- A hit of the loop body, written on the input sequences. -/
theorem hits_iff_cellHits (sqrtl : ℚ → ℚ) (a : CPixelizeArgs) (p : Int) (hp : 0 ≤ p)
    (j i : Nat) : hits sqrtl a (readCell3 a p) j i ↔ cellHits sqrtl a p.toNat j i := by
  unfold hits inCandidateRange
  rw [inside_iff_containsWorld, mem_intRange (lr_nonneg sqrtl a _),
    mem_intRange (lc_nonneg sqrtl a _)]
  unfold cellHits containsWorld lc lr rc rr md readCell3
  simp only [readAt_of_nonneg _ _ hp, and_assoc]

/-- With the nine per-cell arrays of one length `M`, the reads at `p` are
inside the arrays exactly when `0 <= p < M`. -/
theorem readable_iff (a : CPixelizeArgs)
    (hlen : a.yp.length = a.xp.length ∧ a.zp.length = a.xp.length ∧
      a.pxp.length = a.xp.length ∧ a.pyp.length = a.xp.length ∧ a.dxp.length = a.xp.length ∧
      a.dyp.length = a.xp.length ∧ a.dzp.length = a.xp.length ∧ a.dp.length = a.xp.length)
    (p : Int) : readable a p ↔ 0 ≤ p ∧ p < (a.xp.length : Int) := by
  obtain ⟨h1, h2, h3, h4, h5, h6, h7, h8⟩ := hlen
  unfold readable
  rw [h1, h2, h3, h4, h5, h6, h7, h8]
  constructor
  · rintro ⟨a1, a2, _⟩
    exact ⟨a1, a2⟩
  · rintro ⟨a1, a2⟩
    exact ⟨a1, a2, a2, a2, a2, a2, a2, a2, a2, a2⟩

theorem foldlM_loopBody (sqrtl : ℚ → ℚ) (a : CPixelizeArgs) (pps : List Nat)
    (h : ∀ pp ∈ pps, ∃ p, a.indicesp[pp]? = some p ∧ readable a p) (b : Buffers) :
    pps.foldlM (loopBody sqrtl a) b =
      some ((pps.map (fun pp => a.indicesp.getD pp 0)).foldl (cellStep sqrtl a) b) := by
  induction pps generalizing b with
  | nil => rfl
  | cons pp pps ih =>
    obtain ⟨p, hp, hr⟩ := h pp (List.mem_cons_self _ _)
    have e : loopBody sqrtl a b pp = some (cellStep sqrtl a b p) := by
      unfold loopBody
      rw [hp]
      exact if_pos hr
    have e2 : a.indicesp.getD pp 0 = p := by
      rw [List.getD_eq_getElem?_getD, hp]
      rfl
    rw [List.foldlM_cons, e, List.map_cons, List.foldl_cons, e2]
    exact ih (fun q hq => h q (List.mem_cons_of_mem _ hq)) _

theorem range_map_getD (L : List Int) :
    (List.range L.length).map (fun pp => L.getD pp 0) = L := by
  apply List.ext_getElem
  · simp
  · intro n h1 h2
    simp [List.getElem?_eq_getElem h2]

/-- With a selection as long as the population and all its entries inside the
arrays, the cell loop is defined and is the loop body folded over the selection
sequence. -/
theorem cellLoop_eq_some (sqrtl : ℚ → ℚ) (a : CPixelizeArgs)
    (hK : a.indicesp.length = a.xp.length) (hr : ∀ p ∈ a.indicesp, readable a p) :
    cellLoop sqrtl a =
      some (a.indicesp.foldl (cellStep sqrtl a) ⟨fun _ => 0, fun _ => 0⟩) := by
  unfold cellLoop
  rw [foldlM_loopBody sqrtl a _ _ _, ← hK, range_map_getD]
  intro pp hpp
  have hlt : pp < a.indicesp.length := by
    rw [hK]
    exact List.mem_range.mp hpp
  exact ⟨a.indicesp[pp], List.getElem?_eq_getElem hlt, hr _ (List.getElem_mem hlt)⟩

/-- With a selection as long as the population, an entry outside the arrays
makes the cell loop undefined. -/
theorem cellLoop_eq_none (sqrtl : ℚ → ℚ) (a : CPixelizeArgs)
    (hK : a.indicesp.length = a.xp.length) (p : Int) (hp : p ∈ a.indicesp)
    (hr : ¬ readable a p) : cellLoop sqrtl a = none := by
  obtain ⟨pp, hlt, hpp⟩ := List.mem_iff_getElem.mp hp
  unfold cellLoop
  apply foldlM_none_of_mem _ _ pp (List.mem_range.mpr (by rw [← hK]; exact hlt))
  intro b
  unfold loopBody
  rw [List.getElem?_eq_getElem hlt, hpp]
  exact if_neg hr

/-- The two buffers after the loop body has been folded over the selection
sequence: the hit-count of a pixel is the number of entries of the selection
whose cell contributes to it, the value-sum the sum of their values. -/
theorem foldl_selection_entry (sqrtl : ℚ → ℚ) (a : CPixelizeArgs)
    (hin : ∀ p ∈ a.indicesp, (0 : Int) ≤ p) (j i : Nat) (hi : i < a.cols) :
    (a.indicesp.foldl (cellStep sqrtl a) ⟨fun _ => 0, fun _ => 0⟩).gridded (j * a.cols + i) =
        ((hitting sqrtl a j i).map (fun p => a.dp.getD p.toNat 0)).sum ∧
      (a.indicesp.foldl (cellStep sqrtl a) ⟨fun _ => 0, fun _ => 0⟩).mask (j * a.cols + i) =
        ((hitting sqrtl a j i).length : ℚ) := by
  have h := foldl_entry_sum sqrtl a j i hi a.indicesp ⟨fun _ => 0, fun _ => 0⟩
  have hf : a.indicesp.filter (fun p => decide (hits sqrtl a (readCell3 a p) j i)) =
      hitting sqrtl a j i := by
    unfold hitting
    apply List.filter_congr
    intro p hp
    rw [decide_eq_decide]
    exact hits_iff_cellHits sqrtl a p (hin p hp) j i
  have hm : (hitting sqrtl a j i).map (fun p => (readCell3 a p).dsp) =
      (hitting sqrtl a j i).map (fun p => a.dp.getD p.toNat 0) := by
    apply List.map_congr_left
    intro p hp
    have hp1 : p ∈ a.indicesp := (List.mem_filter.mp hp).1
    exact readAt_of_nonneg _ _ (hin p hp1)
  rw [hf, hm] at h
  unfold entry at h
  simp only [zero_add, Prod.mk.injEq] at h
  exact h

end CPixelize

namespace CPixelize

/-- The cell loop depends on the per-cell arrays only through the values at
the indices listed in the selection. -/
theorem cellLoop_withCells (sqrtl : ℚ → ℚ) (a : CPixelizeArgs)
    (xp yp zp pxp pyp dxp dyp dzp dp : List ℚ)
    (hlen : a.yp.length = a.xp.length ∧ a.zp.length = a.xp.length ∧
      a.pxp.length = a.xp.length ∧ a.pyp.length = a.xp.length ∧ a.dxp.length = a.xp.length ∧
      a.dyp.length = a.xp.length ∧ a.dzp.length = a.xp.length ∧ a.dp.length = a.xp.length)
    (hK : a.indicesp.length = a.xp.length)
    (hin : ∀ p ∈ a.indicesp, 0 ≤ p ∧ p < (a.xp.length : Int))
    (hl : xp.length = a.xp.length ∧ yp.length = a.xp.length ∧ zp.length = a.xp.length ∧
      pxp.length = a.xp.length ∧ pyp.length = a.xp.length ∧ dxp.length = a.xp.length ∧
      dyp.length = a.xp.length ∧ dzp.length = a.xp.length ∧ dp.length = a.xp.length)
    (hag : agreeOn a.indicesp xp a.xp ∧ agreeOn a.indicesp yp a.yp ∧
      agreeOn a.indicesp zp a.zp ∧ agreeOn a.indicesp pxp a.pxp ∧
      agreeOn a.indicesp pyp a.pyp ∧ agreeOn a.indicesp dxp a.dxp ∧
      agreeOn a.indicesp dyp a.dyp ∧ agreeOn a.indicesp dzp a.dzp ∧
      agreeOn a.indicesp dp a.dp) :
    cellLoop sqrtl (withCells a xp yp zp pxp pyp dxp dyp dzp dp) = cellLoop sqrtl a := by
  obtain ⟨l1, l2, l3, l4, l5, l6, l7, l8, l9⟩ := hl
  obtain ⟨g1, g2, g3, g4, g5, g6, g7, g8, g9⟩ := hag
  have hr : ∀ p ∈ a.indicesp, readable a p := fun p hp => (readable_iff a hlen p).mpr (hin p hp)
  have hlen1 : (withCells a xp yp zp pxp pyp dxp dyp dzp dp).yp.length =
        (withCells a xp yp zp pxp pyp dxp dyp dzp dp).xp.length ∧
      (withCells a xp yp zp pxp pyp dxp dyp dzp dp).zp.length =
        (withCells a xp yp zp pxp pyp dxp dyp dzp dp).xp.length ∧
      (withCells a xp yp zp pxp pyp dxp dyp dzp dp).pxp.length =
        (withCells a xp yp zp pxp pyp dxp dyp dzp dp).xp.length ∧
      (withCells a xp yp zp pxp pyp dxp dyp dzp dp).pyp.length =
        (withCells a xp yp zp pxp pyp dxp dyp dzp dp).xp.length ∧
      (withCells a xp yp zp pxp pyp dxp dyp dzp dp).dxp.length =
        (withCells a xp yp zp pxp pyp dxp dyp dzp dp).xp.length ∧
      (withCells a xp yp zp pxp pyp dxp dyp dzp dp).dyp.length =
        (withCells a xp yp zp pxp pyp dxp dyp dzp dp).xp.length ∧
      (withCells a xp yp zp pxp pyp dxp dyp dzp dp).dzp.length =
        (withCells a xp yp zp pxp pyp dxp dyp dzp dp).xp.length ∧
      (withCells a xp yp zp pxp pyp dxp dyp dzp dp).dp.length =
        (withCells a xp yp zp pxp pyp dxp dyp dzp dp).xp.length :=
    ⟨l2.trans l1.symm, l3.trans l1.symm, l4.trans l1.symm, l5.trans l1.symm, l6.trans l1.symm,
      l7.trans l1.symm, l8.trans l1.symm, l9.trans l1.symm⟩
  have hr1 : ∀ p ∈ (withCells a xp yp zp pxp pyp dxp dyp dzp dp).indicesp,
      readable (withCells a xp yp zp pxp pyp dxp dyp dzp dp) p := by
    intro p hp
    rw [readable_iff _ hlen1 p]
    have h := hin p hp
    have e : (withCells a xp yp zp pxp pyp dxp dyp dzp dp).xp.length = a.xp.length := l1
    rw [e]
    exact h
  have hK1 : (withCells a xp yp zp pxp pyp dxp dyp dzp dp).indicesp.length =
      (withCells a xp yp zp pxp pyp dxp dyp dzp dp).xp.length := hK.trans l1.symm
  rw [cellLoop_eq_some sqrtl _ hK1 hr1, cellLoop_eq_some sqrtl a hK hr]
  congr 1
  apply foldl_cellStep_withCells sqrtl a xp yp zp pxp pyp dxp dyp dzp dp a.indicesp
  intro p hp
  have h0 := (hin p hp).1
  unfold readCell3 withCells
  simp only [readAt_of_nonneg _ _ h0, g1 p hp, g2 p hp, g3 p hp, g4 p hp, g5 p hp, g6 p hp,
    g7 p hp, g8 p hp, g9 p hp]

end CPixelize

/-! ## Claims -/

/-- C1. In exact arithmetic, for every input with `rows > 0`, `cols > 0`,
`x_max > x_min`, `y_max > y_min`, antialias on and check_period off (and the
five sequences of one length), `Py_Pixelize` returns without error a
`rows x cols` grid in which every pixel `[j][i]` equals the sum, over the
indices `p` of the input sequences, of
`value[p] * area(cell rectangle ∩ pixel rectangle) / (px_dx * px_dy)`
(`areaWeightedSum`, written on the five input sequences and the bounds).  The
statement holds for half-widths of any sign, so in particular for the
non-negative half-widths of the claim. -/
theorem C1_antialias_pixel_is_area_weighted_sum (a : PixelizeArgs) (P : Params)
    (hP : parseArgs a = P)
    (hlen : a.yp.length = a.xp.length ∧ a.dxp.length = a.xp.length ∧
      a.dyp.length = a.xp.length ∧ a.dp.length = a.xp.length)
    (hrows : 0 < P.rows) (hcols : 0 < P.cols)
    (hx : P.x_min < P.x_max) (hy : P.y_min < P.y_max)
    (haa : P.antialias = 1) (hcp : P.check_period ≠ 1) :
    ∃ data : Pixels, Py_Pixelize a = ⟨some ⟨P.rows, P.cols, data⟩, none, true⟩ ∧
      ∀ j < P.rows, ∀ i < P.cols,
        data j i =
          areaWeightedSum a.xp a.yp a.dxp a.dyp a.dp P.rows P.cols
            P.x_min P.x_max P.y_min P.y_max j i := by
  subst hP
  refine ⟨cellLoop (parseArgs a) (cells a.xp a.yp a.dxp a.dyp a.dp a.xp.length), ?_, ?_⟩
  · rw [Py_Pixelize_of_lengths a hlen, if_neg]
    omega
  · intro j hj i hi
    exact cellLoop_areaWeightedSum a _ hrows hcols hx hy haa hcp j i hj hi

theorem C1_antialias_pixel_is_area_weighted_sum_witness :
    ∃ data : Pixels, Py_Pixelize overlapArgs = ⟨some ⟨2, 2, data⟩, none, true⟩ ∧
      data 0 0 = 4 ∧ data 0 1 = 4 ∧ data 1 0 = 4 ∧ data 1 1 = 12 := by
  obtain ⟨data, h1, h2⟩ := C1_antialias_pixel_is_area_weighted_sum overlapArgs
    (parseArgs overlapArgs) rfl ⟨rfl, rfl, rfl, rfl⟩ (by decide) (by decide) (by decide)
    (by decide) rfl (by decide)
  refine ⟨data, h1, ?_, ?_, ?_, ?_⟩
  · rw [h2 0 (by decide) 0 (by decide)]
    show areaWeightedSum [0, 1 / 2] [0, 1 / 2] [1, 1 / 2] [1, 1 / 2] [4, 8] 2 2 (-1) 1 (-1) 1
      0 0 = 4
    simp only [areaWeightedSum, List.length_cons, List.length_nil, Finset.sum_range_succ,
      Finset.sum_range_zero, List.getD_cons_zero, List.getD_cons_succ, interLen]
    norm_num
  · rw [h2 0 (by decide) 1 (by decide)]
    show areaWeightedSum [0, 1 / 2] [0, 1 / 2] [1, 1 / 2] [1, 1 / 2] [4, 8] 2 2 (-1) 1 (-1) 1
      0 1 = 4
    simp only [areaWeightedSum, List.length_cons, List.length_nil, Finset.sum_range_succ,
      Finset.sum_range_zero, List.getD_cons_zero, List.getD_cons_succ, interLen]
    norm_num
  · rw [h2 1 (by decide) 0 (by decide)]
    show areaWeightedSum [0, 1 / 2] [0, 1 / 2] [1, 1 / 2] [1, 1 / 2] [4, 8] 2 2 (-1) 1 (-1) 1
      1 0 = 4
    simp only [areaWeightedSum, List.length_cons, List.length_nil, Finset.sum_range_succ,
      Finset.sum_range_zero, List.getD_cons_zero, List.getD_cons_succ, interLen]
    norm_num
  · rw [h2 1 (by decide) 1 (by decide)]
    show areaWeightedSum [0, 1 / 2] [0, 1 / 2] [1, 1 / 2] [1, 1 / 2] [4, 8] 2 2 (-1) 1 (-1) 1
      1 1 = 12
    simp only [areaWeightedSum, List.length_cons, List.length_nil, Finset.sum_range_succ,
      Finset.sum_range_zero, List.getD_cons_zero, List.getD_cons_succ, interLen]
    norm_num

/-- C2 (as stated, refuted). In the scenario (one cell at `(0,0)`, half-widths
`(1,1)`, value 4, 2 x 2 grid over `(-1,1,-1,1)`, antialias on, no periodicity)
the returned grid does not have all pixels equal to 1: pixel `[0][0]` is 4. -/
theorem C2_scenario_pixels_not_one :
    ¬ ∃ g : Grid, (Py_Pixelize (scenarioArgs 1 0)).ret = some g ∧
        ∀ j < 2, ∀ i < 2, g.data j i = 1 := by
  rintro ⟨g, hg, h⟩
  rw [scenario_result] at hg
  have hg1 : g.data = cellLoop (parseArgs (scenarioArgs 1 0)) [⟨0, 0, 1, 1, 4⟩] := by
    cases hg; rfl
  have h00 := h 0 (by decide) 0 (by decide)
  rw [hg1, scenario_antialias_pixel 0 0 (by decide) (by decide)] at h00
  norm_num at h00

/-- C2 (amended). In the scenario (one cell at `(0,0)`, half-widths `(1,1)`,
value 4, 2 x 2 grid over `(-1,1,-1,1)`, antialias on, no periodicity)
`Py_Pixelize` returns without error a 2 x 2 grid in which all 4 pixels equal
4.0: the antialias weight is the covered fraction of the pixel, and every pixel
is fully covered. -/
theorem C2_scenario_pixels_are_four :
    ∃ data : Pixels, Py_Pixelize (scenarioArgs 1 0) = ⟨some ⟨2, 2, data⟩, none, true⟩ ∧
      ∀ j < 2, ∀ i < 2, data j i = 4 :=
  ⟨_, scenario_result 1, fun j hj i hi => scenario_antialias_pixel j i hj hi⟩

/-- C3 (as stated, refuted). One cell at `(1,1)`, half-widths `(1,1)`, value 1,
inside the bounds `(0,2,0,2)` of a 1 x 1 grid, antialias on, check_period off:
the sum of all output pixels is 1, not `value * cell_area = 1 * (2*1)*(2*1) = 4`. -/
theorem C3_sum_is_not_value_times_cell_area :
    ∃ g : Grid, Py_Pixelize areaArgs = ⟨some g, none, true⟩ ∧ g.dim0 = 1 ∧ g.dim1 = 1 ∧
      gridSum g = 1 ∧ gridSum g ≠ 1 * ((2 * 1) * (2 * 1)) := by
  refine ⟨⟨1, 1, cellLoop (parseArgs areaArgs) [⟨1, 1, 1, 1, 1⟩]⟩, ?_, rfl, rfl, ?_⟩
  · rw [Py_Pixelize_of_lengths _ ⟨rfl, rfl, rfl, rfl⟩, ← single_cells]
    rfl
  · have h := single_cell_sum (parseArgs areaArgs) (by decide) (by decide) (by decide)
      (by decide) rfl (by decide) ⟨1, 1, 1, 1, 1⟩ (by norm_num [parseArgs, areaArgs])
      (by decide) (by decide)
    have e : gridSum ⟨1, 1, cellLoop (parseArgs areaArgs) [⟨1, 1, 1, 1, 1⟩]⟩ = 1 := by
      rw [show (⟨1, 1, cellLoop (parseArgs areaArgs) [⟨1, 1, 1, 1, 1⟩]⟩ : Grid) =
        ⟨(parseArgs areaArgs).rows, (parseArgs areaArgs).cols,
          cellLoop (parseArgs areaArgs) [⟨1, 1, 1, 1, 1⟩]⟩ from rfl, h]
      norm_num [parseArgs, areaArgs, Params.px_dx, Params.px_dy, Params.width, Params.height]
    rw [e]
    norm_num

/-- C3 (amended). In exact arithmetic, for every single cell with check_period
off and antialias on whose rectangle lies fully inside the bounds
(`x_min <= x-hx`, `x+hx <= x_max`, `y_min <= y-hy`, `y+hy <= y_max`,
`hx, hy >= 0`), with `rows > 0`, `cols > 0` and non-degenerate bounds, the sum
over all output pixels of `Py_Pixelize` equals
`value * cell_area / (px_dx * px_dy)`, where `cell_area = (2*hx)*(2*hy)`: the
pixels hold the covered fraction of their own area, so the sum times the pixel
area is `value * cell_area`. -/
theorem C3_single_cell_sum_is_area_over_pixel_area (a : PixelizeArgs) (P : Params)
    (hP : parseArgs a = P) (x y hx hy v : ℚ)
    (hcell : a.xp = [x] ∧ a.yp = [y] ∧ a.dxp = [hx] ∧ a.dyp = [hy] ∧ a.dp = [v])
    (hrows : 0 < P.rows) (hcols : 0 < P.cols)
    (hxb : P.x_min < P.x_max) (hyb : P.y_min < P.y_max)
    (haa : P.antialias = 1) (hcp : P.check_period ≠ 1)
    (hin : P.x_min ≤ x - hx ∧ x + hx ≤ P.x_max ∧ P.y_min ≤ y - hy ∧ y + hy ≤ P.y_max)
    (hhx : 0 ≤ hx) (hhy : 0 ≤ hy) :
    ∃ g : Grid, Py_Pixelize a = ⟨some g, none, true⟩ ∧ g.dim0 = P.rows ∧ g.dim1 = P.cols ∧
      gridSum g = v * ((2 * hx) * (2 * hy)) / (P.px_dx * P.px_dy) := by
  subst hP
  obtain ⟨e1, e2, e3, e4, e5⟩ := hcell
  refine ⟨⟨(parseArgs a).rows, (parseArgs a).cols,
    cellLoop (parseArgs a) [⟨x, y, hx, hy, v⟩]⟩, ?_, rfl, rfl, ?_⟩
  · rw [Py_Pixelize_of_lengths a (by simp [e1, e2, e3, e4, e5]), if_neg (by omega),
      e1, e2, e3, e4, e5]
    simp [single_cells]
  · exact single_cell_sum _ hrows hcols hxb hyb haa hcp ⟨x, y, hx, hy, v⟩ hin hhx hhy

theorem C3_single_cell_sum_is_area_over_pixel_area_witness :
    ∃ g : Grid, Py_Pixelize areaArgs = ⟨some g, none, true⟩ ∧
      g.dim0 = (parseArgs areaArgs).rows ∧ g.dim1 = (parseArgs areaArgs).cols ∧
      gridSum g = 1 * ((2 * 1) * (2 * 1)) /
        ((parseArgs areaArgs).px_dx * (parseArgs areaArgs).px_dy) :=
  C3_single_cell_sum_is_area_over_pixel_area areaArgs (parseArgs areaArgs) rfl 1 1 1 1 1
    ⟨rfl, rfl, rfl, rfl, rfl⟩ (by decide) (by decide) (by decide) (by decide) rfl (by decide)
    (by norm_num [parseArgs, areaArgs]) (by decide) (by decide)

/-- C4. In exact arithmetic, for every single cell with antialias off and
check_period off (`rows > 0`, `cols > 0`, non-degenerate bounds), `Py_Pixelize`
returns without error a grid in which every pixel whose rectangle is contained
in the cell's rectangle equals the cell's value, and every pixel whose
rectangle does not intersect the cell's rectangle equals 0; and the cell
`(0,0)`, half-widths `(1,1)`, value 4 on a 2 x 2 grid over `(-1,1,-1,1)` gives
all 4 pixels equal to 4.  The general part holds for half-widths of any sign,
so in particular for the non-negative ones of the claim. -/
theorem C4_overwrite_single_cell :
    (∀ (a : PixelizeArgs) (P : Params) (x y hx hy v : ℚ),
      parseArgs a = P →
      (a.xp = [x] ∧ a.yp = [y] ∧ a.dxp = [hx] ∧ a.dyp = [hy] ∧ a.dp = [v]) →
      0 < P.rows → 0 < P.cols → P.x_min < P.x_max → P.y_min < P.y_max →
      P.antialias ≠ 1 → P.check_period ≠ 1 →
      ∃ data : Pixels, Py_Pixelize a = ⟨some ⟨P.rows, P.cols, data⟩, none, true⟩ ∧
        ∀ j < P.rows, ∀ i < P.cols,
          ((x - hx ≤ P.x_min + (j : ℚ) * P.px_dx ∧ P.x_min + ((j : ℚ) + 1) * P.px_dx ≤ x + hx ∧
            y - hy ≤ P.y_min + (i : ℚ) * P.px_dy ∧ P.y_min + ((i : ℚ) + 1) * P.px_dy ≤ y + hy) →
              data j i = v) ∧
          ((P.x_min + ((j : ℚ) + 1) * P.px_dx < x - hx ∨ x + hx < P.x_min + (j : ℚ) * P.px_dx ∨
            P.y_min + ((i : ℚ) + 1) * P.px_dy < y - hy ∨ y + hy < P.y_min + (i : ℚ) * P.px_dy) →
              data j i = 0)) ∧
    (∃ data : Pixels, Py_Pixelize (scenarioArgs 0 0) = ⟨some ⟨2, 2, data⟩, none, true⟩ ∧
      ∀ j < 2, ∀ i < 2, data j i = 4) := by
  refine ⟨?_, _, scenario_result 0, fun j hj i hi => scenario_overwrite_pixel j i hj hi⟩
  intro a P x y hx hy v hP hcell hrows hcols hxb hyb haa hcp
  subst hP
  obtain ⟨e1, e2, e3, e4, e5⟩ := hcell
  refine ⟨cellLoop (parseArgs a) [⟨x, y, hx, hy, v⟩], ?_, ?_⟩
  · rw [Py_Pixelize_of_lengths a (by simp [e1, e2, e3, e4, e5]), if_neg (by omega),
      e1, e2, e3, e4, e5]
    simp [single_cells]
  · intro j hj i hi
    have hpx := px_dx_pos _ hrows hxb
    have hpy := px_dy_pos _ hcols hyb
    have hj0 : (0 : ℚ) ≤ (j : ℚ) := Nat.cast_nonneg j
    have hi0 : (0 : ℚ) ≤ (i : ℚ) := Nat.cast_nonneg i
    have hj1 : (j : ℚ) + 1 ≤ ((parseArgs a).rows : ℚ) := by exact_mod_cast hj
    have hi1 : (i : ℚ) + 1 ≤ ((parseArgs a).cols : ℚ) := by exact_mod_cast hi
    have hwx := px_dx_mul_rows _ hrows
    have hwy := px_dy_mul_cols _ hcols
    have fx0 : (0 : ℚ) ≤ (j : ℚ) * (parseArgs a).px_dx := mul_nonneg hj0 hpx.le
    have fy0 : (0 : ℚ) ≤ (i : ℚ) * (parseArgs a).px_dy := mul_nonneg hi0 hpy.le
    have fx1 : ((j : ℚ) + 1) * (parseArgs a).px_dx ≤
        ((parseArgs a).rows : ℚ) * (parseArgs a).px_dx := mul_le_mul_of_nonneg_right hj1 hpx.le
    have fy1 : ((i : ℚ) + 1) * (parseArgs a).px_dy ≤
        ((parseArgs a).cols : ℚ) * (parseArgs a).px_dy := mul_le_mul_of_nonneg_right hi1 hpy.le
    rw [single_cell_overwrite _ haa hcp]
    simp only [covers_iff _ hrows hcols hxb hyb]
    constructor
    · rintro ⟨c1, c2, c3, c4⟩
      rw [if_pos]
      simp only [not_or, not_lt, gt_iff_lt]
      refine ⟨⟨?_, ?_⟩, ⟨?_, ?_⟩, ⟨?_, ?_, hj⟩, ⟨?_, ?_, hi⟩⟩ <;> linarith
    · intro hdis
      rw [if_neg]
      rintro ⟨_, _, ⟨d1, d2, _⟩, ⟨d3, d4, _⟩⟩
      rcases hdis with h | h | h | h <;> linarith

theorem C4_overwrite_single_cell_witness :
    ∃ data : Pixels, Py_Pixelize (scenarioArgs 0 0) =
        ⟨some ⟨(parseArgs (scenarioArgs 0 0)).rows, (parseArgs (scenarioArgs 0 0)).cols, data⟩,
          none, true⟩ ∧
      ∀ j < (parseArgs (scenarioArgs 0 0)).rows, ∀ i < (parseArgs (scenarioArgs 0 0)).cols,
        ((0 - 1 ≤ (parseArgs (scenarioArgs 0 0)).x_min + (j : ℚ) * (parseArgs (scenarioArgs 0 0)).px_dx ∧
          (parseArgs (scenarioArgs 0 0)).x_min + ((j : ℚ) + 1) * (parseArgs (scenarioArgs 0 0)).px_dx ≤ 0 + 1 ∧
          0 - 1 ≤ (parseArgs (scenarioArgs 0 0)).y_min + (i : ℚ) * (parseArgs (scenarioArgs 0 0)).px_dy ∧
          (parseArgs (scenarioArgs 0 0)).y_min + ((i : ℚ) + 1) * (parseArgs (scenarioArgs 0 0)).px_dy ≤ 0 + 1) →
            data j i = 4) ∧
        (((parseArgs (scenarioArgs 0 0)).x_min + ((j : ℚ) + 1) * (parseArgs (scenarioArgs 0 0)).px_dx < 0 - 1 ∨
          0 + 1 < (parseArgs (scenarioArgs 0 0)).x_min + (j : ℚ) * (parseArgs (scenarioArgs 0 0)).px_dx ∨
          (parseArgs (scenarioArgs 0 0)).y_min + ((i : ℚ) + 1) * (parseArgs (scenarioArgs 0 0)).px_dy < 0 - 1 ∨
          0 + 1 < (parseArgs (scenarioArgs 0 0)).y_min + (i : ℚ) * (parseArgs (scenarioArgs 0 0)).px_dy) →
            data j i = 0) :=
  C4_overwrite_single_cell.1 (scenarioArgs 0 0) (parseArgs (scenarioArgs 0 0)) 0 0 1 1 4 rfl
    ⟨rfl, rfl, rfl, rfl, rfl⟩ (by decide) (by decide) (by decide) (by decide) (by decide)
    (by decide)

/-- C6. In exact arithmetic, for a single cell with value > 0, positive
half-widths, antialias on, that straddles `x_min` (`x-hx < x_min < x+hx`), has
`x+hx <= x_max - px_dx` and lies within the y bounds, with
`period_x = x_max - x_min` and `rows >= 2`: with check_period on, `Py_Pixelize`
produces a non-zero pixel both at x-index 0 and at x-index `rows-1`; with
check_period off it produces a non-zero pixel at x-index 0 and every pixel at
x-index `rows-1` is 0. -/
theorem C6_periodic_wrap_straddling_x_min (a : PixelizeArgs) (P : Params)
    (hP : parseArgs a = P) (x y hx hy v : ℚ)
    (hcell : a.xp = [x] ∧ a.yp = [y] ∧ a.dxp = [hx] ∧ a.dyp = [hy] ∧ a.dp = [v])
    (hrows : 2 ≤ P.rows) (hcols : 0 < P.cols)
    (hxb : P.x_min < P.x_max) (hyb : P.y_min < P.y_max) (haa : P.antialias = 1)
    (hv : 0 < v) (_hhx : 0 < hx) (hhy : 0 < hy)
    (hstr : x - hx < P.x_min ∧ P.x_min < x + hx) (hfar : x + hx ≤ P.x_max - P.px_dx)
    (hyin : P.y_min ≤ y - hy ∧ y + hy ≤ P.y_max) (hper : P.period_x = P.x_max - P.x_min) :
    ∃ data : Pixels, Py_Pixelize a = ⟨some ⟨P.rows, P.cols, data⟩, none, true⟩ ∧
      (P.check_period = 1 →
        (∃ i < P.cols, data 0 i ≠ 0) ∧ (∃ i < P.cols, data (P.rows - 1) i ≠ 0)) ∧
      (P.check_period ≠ 1 →
        (∃ i < P.cols, data 0 i ≠ 0) ∧ (∀ i < P.cols, data (P.rows - 1) i = 0)) := by
  subst hP
  obtain ⟨e1, e2, e3, e4, e5⟩ := hcell
  refine ⟨cellLoop (parseArgs a) [⟨x, y, hx, hy, v⟩], ?_, ?_, ?_⟩
  · rw [Py_Pixelize_of_lengths a (by simp [e1, e2, e3, e4, e5]), if_neg (by omega),
      e1, e2, e3, e4, e5]
    simp [single_cells]
  · intro hcp
    exact wrap_on _ hrows hcols hxb hyb haa hcp ⟨x, y, hx, hy, v⟩ hv hhy hstr hfar hyin hper
  · intro hcp
    exact wrap_off _ hrows hcols hxb hyb haa hcp ⟨x, y, hx, hy, v⟩ hv hhy hstr hfar hyin hper

theorem C6_periodic_wrap_straddling_x_min_witness :
    (∃ data : Pixels, Py_Pixelize (wrapArgs 1) =
        ⟨some ⟨(parseArgs (wrapArgs 1)).rows, (parseArgs (wrapArgs 1)).cols, data⟩, none, true⟩ ∧
      ((parseArgs (wrapArgs 1)).check_period = 1 →
        (∃ i < (parseArgs (wrapArgs 1)).cols, data 0 i ≠ 0) ∧
        (∃ i < (parseArgs (wrapArgs 1)).cols, data ((parseArgs (wrapArgs 1)).rows - 1) i ≠ 0)) ∧
      ((parseArgs (wrapArgs 1)).check_period ≠ 1 →
        (∃ i < (parseArgs (wrapArgs 1)).cols, data 0 i ≠ 0) ∧
        (∀ i < (parseArgs (wrapArgs 1)).cols,
          data ((parseArgs (wrapArgs 1)).rows - 1) i = 0))) ∧
    (∃ data : Pixels, Py_Pixelize (wrapArgs 0) =
        ⟨some ⟨(parseArgs (wrapArgs 0)).rows, (parseArgs (wrapArgs 0)).cols, data⟩, none, true⟩ ∧
      ((parseArgs (wrapArgs 0)).check_period = 1 →
        (∃ i < (parseArgs (wrapArgs 0)).cols, data 0 i ≠ 0) ∧
        (∃ i < (parseArgs (wrapArgs 0)).cols, data ((parseArgs (wrapArgs 0)).rows - 1) i ≠ 0)) ∧
      ((parseArgs (wrapArgs 0)).check_period ≠ 1 →
        (∃ i < (parseArgs (wrapArgs 0)).cols, data 0 i ≠ 0) ∧
        (∀ i < (parseArgs (wrapArgs 0)).cols,
          data ((parseArgs (wrapArgs 0)).rows - 1) i = 0))) :=
  ⟨C6_periodic_wrap_straddling_x_min (wrapArgs 1) (parseArgs (wrapArgs 1)) rfl (1/2) (1/2) 1
      (1/2) 1 ⟨rfl, rfl, rfl, rfl, rfl⟩ (by decide) (by decide) (by decide) (by decide) rfl
      (by norm_num) (by norm_num) (by norm_num)
      (by norm_num [parseArgs, wrapArgs]) (by norm_num [parseArgs, wrapArgs, Params.px_dx, Params.width])
      (by norm_num [parseArgs, wrapArgs]) (by norm_num [parseArgs, wrapArgs]),
    C6_periodic_wrap_straddling_x_min (wrapArgs 0) (parseArgs (wrapArgs 0)) rfl (1/2) (1/2) 1
      (1/2) 1 ⟨rfl, rfl, rfl, rfl, rfl⟩ (by decide) (by decide) (by decide) (by decide) rfl
      (by norm_num) (by norm_num) (by norm_num)
      (by norm_num [parseArgs, wrapArgs]) (by norm_num [parseArgs, wrapArgs, Params.px_dx, Params.width])
      (by norm_num [parseArgs, wrapArgs]) (by norm_num [parseArgs, wrapArgs])⟩

/-- C7. For every `rows > 0`, `cols > 0`, non-degenerate bounds, and any
antialias / period / check_period setting, `Py_Pixelize` called with five
empty sequences succeeds and returns a `rows x cols` grid whose every pixel
is 0. -/
theorem C7_no_cells_zero_grid (a : PixelizeArgs) (P : Params) (hP : parseArgs a = P)
    (hempty : a.xp = [] ∧ a.yp = [] ∧ a.dxp = [] ∧ a.dyp = [] ∧ a.dp = [])
    (hrows : 0 < P.rows) (hcols : 0 < P.cols)
    (_hx : P.x_min < P.x_max) (_hy : P.y_min < P.y_max) :
    ∃ data : Pixels, Py_Pixelize a = ⟨some ⟨P.rows, P.cols, data⟩, none, true⟩ ∧
      ∀ j < P.rows, ∀ i < P.cols, data j i = 0 := by
  subst hP
  obtain ⟨e1, e2, e3, e4, e5⟩ := hempty
  refine ⟨zeroPixels, ?_, fun _ _ _ _ => rfl⟩
  rw [Py_Pixelize_of_lengths a (by simp [e1, e2, e3, e4, e5]), if_neg (by omega),
    e1, e2, e3, e4, e5]
  rfl

theorem C7_no_cells_zero_grid_witness :
    ∃ data : Pixels, Py_Pixelize emptyArgs =
        ⟨some ⟨(parseArgs emptyArgs).rows, (parseArgs emptyArgs).cols, data⟩, none, true⟩ ∧
      ∀ j < (parseArgs emptyArgs).rows, ∀ i < (parseArgs emptyArgs).cols, data j i = 0 :=
  C7_no_cells_zero_grid emptyArgs (parseArgs emptyArgs) rfl ⟨rfl, rfl, rfl, rfl, rfl⟩
    (by decide) (by decide) (by decide) (by decide)

/-- C8 (the code at the failing input). With `rows = 0`, `cols = 1` and no
cells, the zero-size test does not end the call.  In `Py_Pixelize` it sets the
error "Cannot scale to zero size." and the call goes on: the output array is
allocated and returned (a non-`NULL` result with the error indicator set).  In
`Py_CPixelize` it sets the same error and the call goes on through the array
tests to the store `dims[0] = rows;` (with the error indicator still set),
where the claim asks for an abort before any later step runs. -/
theorem C8_zero_size_check_does_not_abort :
    ((parseArgs zeroRowsArgs).rows = 0 ∧
      (Py_Pixelize zeroRowsArgs).err = some "Cannot scale to zero size." ∧
      (Py_Pixelize zeroRowsArgs).allocated = true ∧
      ∃ data : Pixels, (Py_Pixelize zeroRowsArgs).ret = some ⟨0, 1, data⟩) ∧
    (zeroRowsCArgs.rows = 0 ∧
      Py_CPixelize zeroRowsCArgs = .undefinedStore (some "Cannot scale to zero size.")) := by
  refine ⟨⟨rfl, ?_, ?_, zeroPixels, ?_⟩, rfl, rfl⟩ <;>
    rw [Py_Pixelize_of_lengths zeroRowsArgs ⟨rfl, rfl, rfl, rfl⟩] <;> rfl

/-- C10. For every input in which any of the sequences `centers_y`, `half_x`,
`half_y` or `values` has a length different from that of `centers_x`,
`Py_Pixelize` returns `NULL` with the error indicator set, and the output grid
has not been allocated. -/
theorem C10_length_mismatch_fails_before_allocation (a : PixelizeArgs)
    (hmis : a.yp.length ≠ a.xp.length ∨ a.dxp.length ≠ a.xp.length ∨
      a.dyp.length ≠ a.xp.length ∨ a.dp.length ≠ a.xp.length) :
    (Py_Pixelize a).ret = none ∧ (Py_Pixelize a).err ≠ none ∧
      (Py_Pixelize a).allocated = false := by
  unfold Py_Pixelize
  by_cases h1 : a.yp.length = a.xp.length
  · by_cases h2 : a.dp.length = a.xp.length
    · by_cases h3 : a.dxp.length = a.xp.length
      · by_cases h4 : a.dyp.length = a.xp.length
        · exfalso
          rcases hmis with h | h | h | h
          · exact h h1
          · exact h h3
          · exact h h4
          · exact h h2
        · simp [h1, h2, h3, h4]
      · simp [h1, h2, h3]
    · simp [h1, h2]
  · simp [h1]

theorem C10_length_mismatch_fails_before_allocation_witness :
    (Py_Pixelize mismatchArgs).ret = none ∧ (Py_Pixelize mismatchArgs).err ≠ none ∧
      (Py_Pixelize mismatchArgs).allocated = false :=
  C10_length_mismatch_fails_before_allocation mismatchArgs
    (Or.inr (Or.inr (Or.inr (by decide))))

/-- C12 (as stated, refuted). A population of `M = 2` cells with the selection
`[0]` (`K = 1 < M`, the entry in `[0, M)`) is not accepted: `Py_CPixelize`
returns `NULL` with the error "indices must be same length as dx". -/
theorem C12_short_selection_rejected :
    shortSelectionCArgs.indicesp.length < shortSelectionCArgs.xp.length ∧
      (∀ p ∈ shortSelectionCArgs.indicesp,
        0 ≤ p ∧ p < (shortSelectionCArgs.xp.length : Int)) ∧
      Py_CPixelize shortSelectionCArgs = .failed "indices must be same length as dx" := by
  refine ⟨by decide, by decide, rfl⟩

/-- C12 (amended). For every population of `M` cells (nine per-cell arrays of
length `M`, a center of three entries, a matrix of nine entries): a selection
sequence of a length `K` other than `M` (every `K < M` in particular) is
rejected with the error "indices must be same length as dx".  A selection
sequence of length `K = M` with all entries in `[0, M)` (3 x 3 matrix, grid
with `rows > 0`, `cols > 0`, non-degenerate plane bounds) passes every
argument test (the call reaches the store through `dims` with no error set),
and the cell loop processes exactly the selected cells, in selection order:
the loop reads inside the arrays and is the loop body applied to the entries
of the selection sequence from first to last, for every pixel the hit-count is
the number of entries of the selection sequence whose cell contributes to the
pixel and the value-sum is the sum of their values, and cells not listed in
the selection contribute to no pixel (per-cell arrays that agree with the
given ones at the listed indices give the same buffers). -/
theorem C12_selection_of_population_length :
    (∀ a : CPixelizeArgs,
      (a.yp.length = a.xp.length ∧ a.zp.length = a.xp.length ∧ a.pxp.length = a.xp.length ∧
        a.pyp.length = a.xp.length ∧ a.dxp.length = a.xp.length ∧
        a.dyp.length = a.xp.length ∧ a.dzp.length = a.xp.length ∧
        a.dp.length = a.xp.length) →
      a.centerp.length = 3 → a.inv_mat_size = 9 →
      a.indicesp.length ≠ a.xp.length →
      Py_CPixelize a = .failed "indices must be same length as dx") ∧
    (∀ (sqrtl : ℚ → ℚ) (a : CPixelizeArgs),
      (a.yp.length = a.xp.length ∧ a.zp.length = a.xp.length ∧ a.pxp.length = a.xp.length ∧
        a.pyp.length = a.xp.length ∧ a.dxp.length = a.xp.length ∧
        a.dyp.length = a.xp.length ∧ a.dzp.length = a.xp.length ∧
        a.dp.length = a.xp.length) →
      a.centerp.length = 3 → (a.inv_matp.length = 3 ∧ ∀ r ∈ a.inv_matp, r.length = 3) →
      0 < a.rows → 0 < a.cols →
      a.px_min < a.px_max → a.py_min < a.py_max →
      a.indicesp.length = a.xp.length →
      (∀ p ∈ a.indicesp, 0 ≤ p ∧ p < (a.xp.length : Int)) →
      Py_CPixelize a = .undefinedStore none ∧
        (∃ b : Buffers, CPixelize.cellLoop sqrtl a = some b ∧
          b = a.indicesp.foldl (CPixelize.cellStep sqrtl a) ⟨fun _ => 0, fun _ => 0⟩ ∧
          ∀ j < a.rows, ∀ i < a.cols,
            b.mask (j * a.cols + i) =
                ((a.indicesp.filter
                  (fun p => decide (CPixelize.cellHits sqrtl a p.toNat j i))).length : ℚ) ∧
              b.gridded (j * a.cols + i) =
                ((a.indicesp.filter
                  (fun p => decide (CPixelize.cellHits sqrtl a p.toNat j i))).map
                    (fun p => a.dp.getD p.toNat 0)).sum) ∧
        ∀ xp yp zp pxp pyp dxp dyp dzp dp : List ℚ,
          (xp.length = a.xp.length ∧ yp.length = a.xp.length ∧ zp.length = a.xp.length ∧
            pxp.length = a.xp.length ∧ pyp.length = a.xp.length ∧ dxp.length = a.xp.length ∧
            dyp.length = a.xp.length ∧ dzp.length = a.xp.length ∧ dp.length = a.xp.length) →
          (agreeOn a.indicesp xp a.xp ∧ agreeOn a.indicesp yp a.yp ∧
            agreeOn a.indicesp zp a.zp ∧ agreeOn a.indicesp pxp a.pxp ∧
            agreeOn a.indicesp pyp a.pyp ∧ agreeOn a.indicesp dxp a.dxp ∧
            agreeOn a.indicesp dyp a.dyp ∧ agreeOn a.indicesp dzp a.dzp ∧
            agreeOn a.indicesp dp a.dp) →
          CPixelize.cellLoop sqrtl (withCells a xp yp zp pxp pyp dxp dyp dzp dp) =
            CPixelize.cellLoop sqrtl a) := by
  constructor
  · intro a hpop hc hm hK
    obtain ⟨h1, h2, h3, h4, h5, h6, h7, h8⟩ := hpop
    simp [Py_CPixelize, h1, h5, h6, h7, h8, hc, hm, hK]
  · intro sqrtl a hpop hc hshape hrows hcols _ _ hK hin
    have hm : a.inv_mat_size = 9 := inv_mat_size_of_shape a hshape
    have hr : ∀ p ∈ a.indicesp, CPixelize.readable a p :=
      fun p hp => (CPixelize.readable_iff a hpop p).mpr (hin p hp)
    obtain ⟨h1, h2, h3, h4, h5, h6, h7, h8⟩ := hpop
    refine ⟨?_, ⟨_, CPixelize.cellLoop_eq_some sqrtl a hK hr, rfl, ?_⟩, ?_⟩
    · rw [Py_CPixelize_of_lengths a ⟨h1, h8, h5, h6, h7⟩ hc hm (by rw [hK, h5]),
        if_neg (by omega)]
    · intro j _ i hi
      obtain ⟨hg, hmk⟩ :=
        CPixelize.foldl_selection_entry sqrtl a (fun p hp => (hin p hp).1) j i hi
      exact ⟨hmk, hg⟩
    · intro xp yp zp pxp pyp dxp dyp dzp dp hl hag
      exact CPixelize.cellLoop_withCells sqrtl a xp yp zp pxp pyp dxp dyp dzp dp
        ⟨h1, h2, h3, h4, h5, h6, h7, h8⟩ hK hin hl hag

theorem C12_selection_of_population_length_witness :
    Py_CPixelize fullSelectionCArgs = .undefinedStore none ∧
      ∃ b : Buffers, CPixelize.cellLoop sqrtAtNine fullSelectionCArgs = some b ∧
        b.mask 0 = 2 ∧ b.gridded 0 = 18 := by
  obtain ⟨h1, ⟨b, hb, _, h2⟩, _⟩ := C12_selection_of_population_length.2 sqrtAtNine
    fullSelectionCArgs ⟨rfl, rfl, rfl, rfl, rfl, rfl, rfl, rfl⟩ rfl (by decide) (by decide)
    (by decide) (by decide) (by decide) rfl (by decide)
  have c : CPixelize.cellHits sqrtAtNine fullSelectionCArgs 1 0 0 := by
    simp only [CPixelize.cellHits, CPixelize.world, fullSelectionCArgs, sqrtAtNine,
      CPixelizeArgs.px_min, CPixelizeArgs.px_max, CPixelizeArgs.py_min, CPixelizeArgs.py_max,
      CPixelizeArgs.px_dx, CPixelizeArgs.px_dy, CPixelizeArgs.rows, CPixelizeArgs.cols,
      CPixelizeArgs.inv_mats, CPixelizeArgs.centers, List.getD_cons_zero, List.getD_cons_succ]
    norm_num
  have f : fullSelectionCArgs.indicesp.filter
      (fun p => decide (CPixelize.cellHits sqrtAtNine fullSelectionCArgs p.toNat 0 0)) =
        [1, 1] := by
    show List.filter _ [1, 1] = [1, 1]
    rw [List.filter_cons_of_pos (by rw [decide_eq_true_eq]; exact c),
      List.filter_cons_of_pos (by rw [decide_eq_true_eq]; exact c)]
    rfl
  have h3 := h2 0 (by decide) 0 (by decide)
  rw [f] at h3
  refine ⟨h1, b, hb, ?_, ?_⟩
  · rw [show (0 : Nat) = 0 * fullSelectionCArgs.cols + 0 from rfl, h3.1]
    norm_num
  · rw [show (0 : Nat) = 0 * fullSelectionCArgs.cols + 0 from rfl, h3.2]
    norm_num [fullSelectionCArgs]

/-- C13 (the code at the failing input). With an empty `z` array next to an
`x` array of length 1, `Py_CPixelize` returns no error: the test after the
conversion of `z` compares the sizes of `y` and `x`, every argument test
passes and the call goes on to the store `dims[0] = rows;` with no error set;
the cell loop that follows would read `z[0]` outside the array.  The same
input with an empty `dz` array instead is rejected with the error of the `dz`
test. -/
theorem C13_short_z_array_passes_the_tests :
    shortZCArgs.zp.length ≠ shortZCArgs.xp.length ∧
      shortDzCArgs.dzp.length ≠ shortDzCArgs.xp.length ∧
      Py_CPixelize shortZCArgs = .undefinedStore none ∧
      (∀ sqrtl : ℚ → ℚ, CPixelize.cellLoop sqrtl shortZCArgs = none) ∧
      Py_CPixelize shortDzCArgs = .failed "dz is of incorrect type (wanted 1D float)" := by
  refine ⟨by decide, by decide, rfl, fun sqrtl => ?_, rfl⟩
  exact CPixelize.cellLoop_eq_none sqrtl shortZCArgs rfl 0 (by decide) (by decide)

/-- C15 (the code at the failing input). For `Pixelize(.., 2, 3, (0,1,0,1))`
the sixth argument 2 is stored in `cols` and the seventh argument 3 in `rows`:
the returned grid has first dimension 3 and second dimension 2, and
`px_dx = (x_max-x_min)/3`, `px_dy = (y_max-y_min)/2`, where the docstring lists
the sixth argument as the number of rows. -/
theorem C15_sixth_argument_is_cols :
    dimsArgs.arg6 = 2 ∧ dimsArgs.arg7 = 3 ∧
      (parseArgs dimsArgs).rows = 3 ∧ (parseArgs dimsArgs).cols = 2 ∧
      (parseArgs dimsArgs).px_dx = (1 - 0) / 3 ∧ (parseArgs dimsArgs).px_dy = (1 - 0) / 2 ∧
      ∃ data : Pixels, Py_Pixelize dimsArgs = ⟨some ⟨3, 2, data⟩, none, true⟩ := by
  refine ⟨rfl, rfl, rfl, rfl, ?_, ?_, zeroPixels, ?_⟩
  · norm_num [parseArgs, dimsArgs, Params.px_dx, Params.width]
  · norm_num [parseArgs, dimsArgs, Params.px_dy, Params.height]
  · rw [Py_Pixelize_of_lengths dimsArgs ⟨rfl, rfl, rfl, rfl⟩]
    rfl

/-- C16 (as stated, refuted). For one cell crossing `x_min` on a 4 x 1 grid
over `(0,4,0,1)`, the call with the optional arguments omitted gives 2 in
pixel `[0][0]` and the same call with `antialias = 1`, `period = (0,0)` and
`check_period = 0` passed explicitly gives 1: the omitted `check_period` is
not 0 and a periodic image is evaluated. -/
theorem C16_omitted_check_period_differs_from_zero :
    (parseArgs (crossArgs .omitted)).check_period = 1 ∧
    ∃ d1 d0 : Pixels,
      Py_Pixelize (crossArgs .omitted) = ⟨some ⟨4, 1, d1⟩, none, true⟩ ∧
      Py_Pixelize (crossArgs (.all 1 0 0 0)) = ⟨some ⟨4, 1, d0⟩, none, true⟩ ∧
      d1 0 0 = 2 ∧ d0 0 0 = 1 ∧ d1 0 0 ≠ d0 0 0 := by
  have h0 := crossArgs_off_pixel
  have h1 : cellLoop (parseArgs (crossArgs .omitted)) [⟨1 / 2, 1 / 2, 1, 1 / 2, 1⟩] 0 0 = 2 := by
    have h := zero_period_doubles (1 / 2) (1 / 2) 1 (1 / 2) 1 1 4 0 4 0 1
      (Or.inl (by norm_num)) (by norm_num) (by norm_num) 0 0
    have e : parseArgs (crossArgs .omitted) =
        parseArgs (singleCellArgs (1 / 2) (1 / 2) 1 (1 / 2) 1 1 4 0 4 0 1 (.all 1 0 0 1)) := rfl
    rw [e, h]
    have h0' : cellLoop
        (parseArgs (singleCellArgs (1 / 2) (1 / 2) 1 (1 / 2) 1 1 4 0 4 0 1 (.all 1 0 0 0)))
        [⟨1 / 2, 1 / 2, 1, 1 / 2, 1⟩] 0 0 = 1 := h0
    rw [h0']
    norm_num
  refine ⟨rfl, _, _, singleCellArgs_result _ _ _ _ _ _ _ _ _ _ _ _ (by decide) (by decide),
    singleCellArgs_result _ _ _ _ _ _ _ _ _ _ _ _ (by decide) (by decide), h1, h0, ?_⟩
  show cellLoop (parseArgs (crossArgs .omitted)) [⟨1 / 2, 1 / 2, 1, 1 / 2, 1⟩] 0 0 ≠
    cellLoop (parseArgs (crossArgs (.all 1 0 0 0))) [⟨1 / 2, 1 / 2, 1, 1 / 2, 1⟩] 0 0
  rw [h1, h0]
  norm_num

/-- C16 (amended). For every input of `Py_Pixelize` in which the optional
`check_period` argument is omitted, the defaults are `antialias = 1`,
`period = (0,0)` and `check_period = 1` (on): the result equals the result of
the same call with `check_period` passed explicitly as 1 (and the omitted
`antialias`, `period` passed as `1`, `(0,0)`). -/
theorem C16_omitted_check_period_is_on (xp yp dxp dyp dp : List ℚ) (n6 n7 : Nat)
    (b0 b1 b2 b3 : ℚ) :
    parseArgs ⟨xp, yp, dxp, dyp, dp, n6, n7, b0, b1, b2, b3, .omitted⟩ =
        ⟨n7, n6, b0, b1, b2, b3, 1, 0, 0, 1⟩ ∧
      Py_Pixelize ⟨xp, yp, dxp, dyp, dp, n6, n7, b0, b1, b2, b3, .omitted⟩ =
        Py_Pixelize ⟨xp, yp, dxp, dyp, dp, n6, n7, b0, b1, b2, b3, .all 1 0 0 1⟩ ∧
      (∀ aa : Int,
        Py_Pixelize ⟨xp, yp, dxp, dyp, dp, n6, n7, b0, b1, b2, b3, .upto_antialias aa⟩ =
          Py_Pixelize ⟨xp, yp, dxp, dyp, dp, n6, n7, b0, b1, b2, b3, .all aa 0 0 1⟩) ∧
      (∀ (aa : Int) (px py : ℚ),
        Py_Pixelize ⟨xp, yp, dxp, dyp, dp, n6, n7, b0, b1, b2, b3, .upto_period aa px py⟩ =
          Py_Pixelize ⟨xp, yp, dxp, dyp, dp, n6, n7, b0, b1, b2, b3, .all aa px py 1⟩) :=
  ⟨rfl, rfl, fun _ => rfl, fun _ _ _ => rfl⟩

/-- C17. In exact arithmetic, with antialias on, the grid returned by
`Py_Pixelize` is invariant under any permutation of the cells: for every input
(five sequences of one length, `rows > 0`, `cols > 0`, non-degenerate bounds,
any period and check_period) and every rearrangement `σ` of the indices applied
simultaneously to the five sequences, the two output grids are equal pixel by
pixel. -/
theorem C17_antialias_grid_invariant_under_permutation (a : PixelizeArgs) (P : Params)
    (hP : parseArgs a = P) (σ : List Nat)
    (hlen : a.yp.length = a.xp.length ∧ a.dxp.length = a.xp.length ∧
      a.dyp.length = a.xp.length ∧ a.dp.length = a.xp.length)
    (hσ : σ.Perm (List.range a.xp.length))
    (hrows : 0 < P.rows) (hcols : 0 < P.cols)
    (_hx : P.x_min < P.x_max) (_hy : P.y_min < P.y_max) (haa : P.antialias = 1) :
    ∃ data data1 : Pixels,
      Py_Pixelize a = ⟨some ⟨P.rows, P.cols, data⟩, none, true⟩ ∧
      Py_Pixelize (permuteArgs a σ) = ⟨some ⟨P.rows, P.cols, data1⟩, none, true⟩ ∧
      ∀ j i, data1 j i = data j i := by
  subst hP
  refine ⟨cellLoop (parseArgs a) (cells a.xp a.yp a.dxp a.dyp a.dp a.xp.length),
    cellLoop (parseArgs a) (σ.map (readCell a.xp a.yp a.dxp a.dyp a.dp)), ?_, ?_, ?_⟩
  · rw [Py_Pixelize_of_lengths a hlen, if_neg (by omega)]
  · rw [Py_Pixelize_of_lengths (permuteArgs a σ) (by simp [permuteArgs]),
      parseArgs_permuteArgs, if_neg (by omega), cells_permuteArgs]
  · intro j i
    exact cellLoop_antialias_perm _ haa _ _ (hσ.map _) j i

theorem C17_antialias_grid_invariant_under_permutation_witness :
    ∃ data data1 : Pixels,
      Py_Pixelize twoCellArgs =
        ⟨some ⟨(parseArgs twoCellArgs).rows, (parseArgs twoCellArgs).cols, data⟩, none, true⟩ ∧
      Py_Pixelize (permuteArgs twoCellArgs [1, 0]) =
        ⟨some ⟨(parseArgs twoCellArgs).rows, (parseArgs twoCellArgs).cols, data1⟩,
          none, true⟩ ∧
      ∀ j i, data1 j i = data j i :=
  C17_antialias_grid_invariant_under_permutation twoCellArgs (parseArgs twoCellArgs) rfl [1, 0]
    ⟨rfl, rfl, rfl, rfl⟩ (by decide) (by decide) (by decide) (by decide) (by decide) rfl

/-- C18 (the code at the failing input). For the call `tinyBoundsArgs`
(`rows = cols = 1`, bounds `(0, 2^-1030, 0, 1)`, so `rows > 0`, `cols > 0`
and the bounds are not degenerate) the single cell passes both bounds tests;
on the y axis `(ysp-dysp-y_min)*ipx_dy = 0` and `(ysp+dysp-y_min)*ipx_dy = 1`,
so the `i` loop runs for `i = 0`; the reciprocal `ipx_dx = 1/px_dx = 2^1030`
exceeds `DBL_MAX` (which lies between `2^1023` and `2^1024`), so that the
`double` the source computes is infinite, and the left edge of the cell lies
to the right of `x_min`: `lc = max((xsp-dxsp-x_min)*ipx_dx, 0)` is then the
product of a positive number and an infinity, and `j = lc` converts an
infinite `double` to `int`, which C leaves undefined. -/
theorem C18_reciprocal_pixel_width_exceeds_double_range :
    0 < (parseArgs tinyBoundsArgs).rows ∧ 0 < (parseArgs tinyBoundsArgs).cols ∧
    (parseArgs tinyBoundsArgs).x_min < (parseArgs tinyBoundsArgs).x_max ∧
    (parseArgs tinyBoundsArgs).y_min < (parseArgs tinyBoundsArgs).y_max ∧
    ¬ (tinyBoundsArgs.xp.getD 0 0 + tinyBoundsArgs.dxp.getD 0 0 < (parseArgs tinyBoundsArgs).x_min ∨
        tinyBoundsArgs.xp.getD 0 0 - tinyBoundsArgs.dxp.getD 0 0 >
          (parseArgs tinyBoundsArgs).x_max) ∧
    ¬ (tinyBoundsArgs.yp.getD 0 0 + tinyBoundsArgs.dyp.getD 0 0 < (parseArgs tinyBoundsArgs).y_min ∨
        tinyBoundsArgs.yp.getD 0 0 - tinyBoundsArgs.dyp.getD 0 0 >
          (parseArgs tinyBoundsArgs).y_max) ∧
    (tinyBoundsArgs.yp.getD 0 0 - tinyBoundsArgs.dyp.getD 0 0 - (parseArgs tinyBoundsArgs).y_min) *
        (parseArgs tinyBoundsArgs).ipx_dy = 0 ∧
    (tinyBoundsArgs.yp.getD 0 0 + tinyBoundsArgs.dyp.getD 0 0 - (parseArgs tinyBoundsArgs).y_min) *
        (parseArgs tinyBoundsArgs).ipx_dy = 1 ∧
    (parseArgs tinyBoundsArgs).px_dx = 1 / 2 ^ 1030 ∧
    (parseArgs tinyBoundsArgs).ipx_dx = 2 ^ 1030 ∧
    2 ^ 1023 < DBL_MAX ∧ DBL_MAX < 2 ^ 1024 ∧
    (2 : ℚ) ^ 1024 ≤ (parseArgs tinyBoundsArgs).ipx_dx ∧
    0 < tinyBoundsArgs.xp.getD 0 0 - tinyBoundsArgs.dxp.getD 0 0 -
      (parseArgs tinyBoundsArgs).x_min := by
  have hip : (parseArgs tinyBoundsArgs).ipx_dx = 2 ^ 1030 := by
    norm_num [parseArgs, tinyBoundsArgs, Params.ipx_dx, Params.px_dx, Params.width]
  refine ⟨by decide, by decide, ?_, ?_, ?_, ?_, ?_, ?_, ?_, hip, ?_, ?_, ?_, ?_⟩
  · norm_num [parseArgs, tinyBoundsArgs]
  · norm_num [parseArgs, tinyBoundsArgs]
  · norm_num [parseArgs, tinyBoundsArgs]
  · norm_num [parseArgs, tinyBoundsArgs]
  · norm_num [parseArgs, tinyBoundsArgs, Params.ipx_dy, Params.px_dy, Params.height]
  · norm_num [parseArgs, tinyBoundsArgs, Params.ipx_dy, Params.px_dy, Params.height]
  · norm_num [parseArgs, tinyBoundsArgs, Params.px_dx, Params.width]
  · norm_num [DBL_MAX]
  · norm_num [DBL_MAX]
  · rw [hip]; norm_num
  · norm_num [parseArgs, tinyBoundsArgs]

/-- C19. In `Py_CPixelize` (non-degenerate plane bounds), for every selected
cell `p` and every pixel `(j, i)` in that cell's candidate range, the pixel receives a hit from the cell
(the value is added to the value-sum `gridded[j*cols+i]` and the hit-count
`mask[j*cols+i]` is incremented by 1) if and only if, with `(cxpx, cypx)` the
pixel's center in plane coordinates and
`world = inverse_transform · (cxpx, cypx, 0) + plane_center`,
`|cell_center_axis - world_axis| * 0.95 <= half_width_axis` holds on all three
axes; otherwise the two entries keep their values. -/
theorem C19_hit_iff_world_point_contained (sqrtl : ℚ → ℚ) (a : CPixelizeArgs) (b : Buffers)
    (p : Int) (j i : Nat) (_hbx : a.px_min < a.px_max) (_hby : a.py_min < a.py_max)
    (hrange : CPixelize.inCandidateRange sqrtl a (readCell3 a p) j i) :
    ((CPixelize.cellStep sqrtl a b p).gridded (j * a.cols + i) =
          b.gridded (j * a.cols + i) + readAt a.dp p ∧
        (CPixelize.cellStep sqrtl a b p).mask (j * a.cols + i) = b.mask (j * a.cols + i) + 1
      ↔ CPixelize.containsWorld a (readCell3 a p) j i) ∧
    (¬ CPixelize.containsWorld a (readCell3 a p) j i →
      (CPixelize.cellStep sqrtl a b p).gridded (j * a.cols + i) = b.gridded (j * a.cols + i) ∧
        (CPixelize.cellStep sqrtl a b p).mask (j * a.cols + i) = b.mask (j * a.cols + i)) := by
  have hi : i < a.cols := CPixelize.lt_cols_of_mem sqrtl a _ i hrange.2.1
  have h := CPixelize.cellStep_entry sqrtl a b p j i hi
  have hh : CPixelize.hits sqrtl a (readCell3 a p) j i ↔
      CPixelize.containsWorld a (readCell3 a p) j i := by
    unfold CPixelize.hits
    rw [CPixelize.inside_iff_containsWorld]
    exact ⟨fun x => x.2, fun x => ⟨hrange, x⟩⟩
  unfold CPixelize.entry CPixelize.bump at h
  by_cases hw : CPixelize.containsWorld a (readCell3 a p) j i
  · rw [if_pos (hh.mpr hw)] at h
    have h1 := congrArg Prod.fst h
    have h2 := congrArg Prod.snd h
    simp only at h1 h2
    exact ⟨⟨fun _ => hw, fun _ => ⟨h1, h2⟩⟩, fun hn => absurd hw hn⟩
  · rw [if_neg (fun x => hw (hh.mp x))] at h
    have h1 := congrArg Prod.fst h
    have h2 := congrArg Prod.snd h
    simp only at h1 h2
    refine ⟨⟨fun hh => ?_, fun hh => absurd hh hw⟩, fun _ => ⟨h1, h2⟩⟩
    exfalso
    have := hh.2
    rw [h2] at this
    linarith

theorem C19_hit_iff_world_point_contained_witness :
    ((CPixelize.cellStep (fun t => t) oneCellCArgs ⟨fun _ => 0, fun _ => 0⟩ 0).gridded
            (0 * oneCellCArgs.cols + 0) =
          (⟨fun _ => 0, fun _ => 0⟩ : Buffers).gridded (0 * oneCellCArgs.cols + 0) +
            readAt oneCellCArgs.dp 0 ∧
        (CPixelize.cellStep (fun t => t) oneCellCArgs ⟨fun _ => 0, fun _ => 0⟩ 0).mask
            (0 * oneCellCArgs.cols + 0) =
          (⟨fun _ => 0, fun _ => 0⟩ : Buffers).mask (0 * oneCellCArgs.cols + 0) + 1
      ↔ CPixelize.containsWorld oneCellCArgs (readCell3 oneCellCArgs 0) 0 0) ∧
    (¬ CPixelize.containsWorld oneCellCArgs (readCell3 oneCellCArgs 0) 0 0 →
      (CPixelize.cellStep (fun t => t) oneCellCArgs ⟨fun _ => 0, fun _ => 0⟩ 0).gridded
            (0 * oneCellCArgs.cols + 0) =
          (⟨fun _ => 0, fun _ => 0⟩ : Buffers).gridded (0 * oneCellCArgs.cols + 0) ∧
        (CPixelize.cellStep (fun t => t) oneCellCArgs ⟨fun _ => 0, fun _ => 0⟩ 0).mask
            (0 * oneCellCArgs.cols + 0) =
          (⟨fun _ => 0, fun _ => 0⟩ : Buffers).mask (0 * oneCellCArgs.cols + 0)) :=
  C19_hit_iff_world_point_contained (fun t => t) oneCellCArgs ⟨fun _ => 0, fun _ => 0⟩ 0 0 0
    (by decide) (by decide) oneCell_inCandidateRange

/-- C20. In exact arithmetic, for a single cell with antialias on that crosses
a domain edge on the x axis only (`x-hx < x_min` or `x+hx > x_max`, while
`y_min <= y-hy` and `y+hy <= y_max`) and overlaps the bounds, `Py_Pixelize`
with check_period on and `period = (0,0)` yields a grid equal, pixel by pixel,
to exactly twice the grid obtained with check_period off: the zero-offset
periodic image is deposited a second time at the cell's own position. -/
theorem C20_zero_period_image_deposited_twice (x y hx hy v : ℚ) (n6 n7 : Nat)
    (b0 b1 b2 b3 : ℚ) (hrows : 0 < n7) (hcols : 0 < n6) (_hxb : b0 < b1) (_hyb : b2 < b3)
    (hcross : x - hx < b0 ∨ x + hx > b1) (hyin : b2 ≤ y - hy ∧ y + hy ≤ b3)
    (_hov : ¬ (x + hx < b0 ∨ x - hx > b1)) :
    ∃ d1 d0 : Pixels,
      Py_Pixelize (singleCellArgs x y hx hy v n6 n7 b0 b1 b2 b3 (.all 1 0 0 1)) =
        ⟨some ⟨n7, n6, d1⟩, none, true⟩ ∧
      Py_Pixelize (singleCellArgs x y hx hy v n6 n7 b0 b1 b2 b3 (.all 1 0 0 0)) =
        ⟨some ⟨n7, n6, d0⟩, none, true⟩ ∧
      ∀ j i, d1 j i = 2 * d0 j i :=
  ⟨_, _, singleCellArgs_result x y hx hy v n6 n7 b0 b1 b2 b3 _ hrows hcols,
    singleCellArgs_result x y hx hy v n6 n7 b0 b1 b2 b3 _ hrows hcols,
    fun j i => zero_period_doubles x y hx hy v n6 n7 b0 b1 b2 b3 hcross hyin.1 hyin.2 j i⟩

theorem C20_zero_period_image_deposited_twice_witness :
    ∃ d1 d0 : Pixels,
      Py_Pixelize (singleCellArgs (1 / 2) (1 / 2) 1 (1 / 2) 1 1 4 0 4 0 1 (.all 1 0 0 1)) =
        ⟨some ⟨4, 1, d1⟩, none, true⟩ ∧
      Py_Pixelize (singleCellArgs (1 / 2) (1 / 2) 1 (1 / 2) 1 1 4 0 4 0 1 (.all 1 0 0 0)) =
        ⟨some ⟨4, 1, d0⟩, none, true⟩ ∧
      ∀ j i, d1 j i = 2 * d0 j i :=
  C20_zero_period_image_deposited_twice (1 / 2) (1 / 2) 1 (1 / 2) 1 1 4 0 4 0 1 (by decide)
    (by decide) (by norm_num) (by norm_num) (Or.inl (by norm_num)) ⟨by norm_num, by norm_num⟩
    (by norm_num)

end MPL
